import Mathlib

/-!
# SPC debugger (Core/SNES/Debugger/SpcDebugger.cpp)

A shallow embedding of `SpcDebugger`: the debugger is a record of its four
mutable members, every member function is a pure function from the record to
the new record together with the list of calls it makes on its collaborators
(trace logger, disassembler, memory-access counter, `Debugger`).

Machine integers are `Nat`/`Int`; a `uint8_t` is reduced `% 256` and a
`uint16_t` is reduced `% 65536` at the place the C++ type does it.
-/

namespace SpcDebugger

/-! ## Types declared outside the translated file -/

/-- Operation kinds of `MemoryOperationType.h` that reach the SPC debugger. -/
inductive MemoryOperationType where
  | Read
  | Write
  | ExecOpCode
  | ExecOperand
  | DummyRead
  deriving DecidableEq

/-- Step kinds listed by the `switch` of `SpcDebugger::Step`. -/
inductive StepType where
  | Step
  | StepOut
  | StepOver
  | SpecificScanline
  | PpuStep
  deriving DecidableEq

/-- Break sources named by `SpcDebugger::ProcessRead`. -/
inductive BreakSource where
  | Unspecified
  | BreakOnBrk
  | BreakOnStp
  deriving DecidableEq

/-- Memory regions an SPC address resolves to. -/
inductive SnesMemoryType where
  | SpcRam
  | SpcRom
  deriving DecidableEq

/-- Resolved address: canonical offset and region. -/
structure AddressInfo where
  Address : Int
  MemType : SnesMemoryType
  deriving DecidableEq

/-- The triple `{ addr, value, type }` handed to the coordinator. -/
structure MemoryOperationInfo where
  Address : Nat
  Value : Nat
  OpType : MemoryOperationType
  deriving DecidableEq

/-- Modelled from the spec: the declaration of `StepRequest` (DebugTypes.h) is
not among the sources. The spec gives it an optional remaining instruction
count and an optional break address; the code compares both as `int32_t`, so
"absent" is the negative value `-1`, which is neither a count the decrement
can reach nor a 16-bit program counter. -/
structure StepRequest where
  StepCount : Int := -1
  BreakAddress : Int := -1
  deriving DecidableEq

/-- Modelled from the spec: one frame of the callstack tracker (call site,
callee entry and expected return, each resolved and as a PC, plus flags; the
only flag the SPC debugger passes is `StackFrameFlags::None`). -/
structure StackFrameInfo where
  Source : Nat
  AbsSource : AddressInfo
  Target : Nat
  AbsTarget : AddressInfo
  Return : Nat
  AbsReturn : AddressInfo
  deriving DecidableEq

/-- Modelled from the spec: `CallstackManager` (Debugger/CallstackManager.cpp)
is not among the sources. It is an ordered sequence of frames whose head is
the most recent unreturned call. -/
structure CallstackManager where
  frames : List StackFrameInfo := []
  deriving DecidableEq

namespace CallstackManager

/-- Modelled from the spec: `Push` of the absent CallstackManager.cpp adds one
frame on top. -/
def Push (c : CallstackManager) (src : AddressInfo) (srcAddr : Nat) (dest : AddressInfo)
    (destAddr : Nat) (ret : AddressInfo) (returnAddress : Nat) : CallstackManager :=
  { frames := { Source := srcAddr, AbsSource := src, Target := destAddr, AbsTarget := dest,
                Return := returnAddress, AbsReturn := ret } :: c.frames }

/-- Modelled from the spec: `Pop` of the absent CallstackManager.cpp removes the
top frame if there is one; a destination that does not match the expected
return is accepted. -/
def Pop (c : CallstackManager) (_dest : AddressInfo) (_destAddr : Nat) : CallstackManager :=
  { frames := c.frames.tail }

/-- Modelled from the spec: `GetReturnAddress` of the absent
CallstackManager.cpp returns the expected-return PC of the top frame, or the
"no active call" sentinel `-1`. -/
def GetReturnAddress (c : CallstackManager) : Int :=
  match c.frames with
  | [] => -1
  | f :: _ => (f.Return : Int)

/-- Number of frames on the callstack. -/
def depth (c : CallstackManager) : Nat := c.frames.length

end CallstackManager

/-! ## Collaborators -/

/-- What one call of `ProcessRead`/`ProcessWrite` reads from the objects around
the debugger: `_spc->GetState().PC`, `_traceLogger->IsCpuLogged(CpuType::Spc)`,
the three debugger flags of `_settings`, `_spc->GetAbsoluteAddress` and
`_memoryManager->GetMasterClock()`. -/
structure SpcWorld where
  PC : Nat
  IsCpuLogged : Bool
  SpcDebuggerEnabled : Bool
  BreakOnBrk : Bool
  BreakOnStp : Bool
  GetAbsoluteAddress : Nat → AddressInfo
  MasterClock : Nat

/-- Calls the debugger makes on its collaborators, in program order. -/
inductive DebugEvent where
  | BuildCache (info : AddressInfo)
  | Log (pc : Nat) (info : AddressInfo) (addr : Nat)
  | ProcessMemoryExec (info : AddressInfo) (clock : Nat)
  | ProcessMemoryRead (info : AddressInfo) (clock : Nat)
  | ProcessMemoryWrite (info : AddressInfo) (clock : Nat)
  | InvalidateCache (info : AddressInfo)
  | ProcessBreakConditions (pause : Bool) (operation : MemoryOperationInfo)
      (info : AddressInfo) (source : BreakSource)
  deriving DecidableEq

/-! ## The debugger -/

/-- Mutable members of `SpcDebugger`. -/
structure State where
  _prevOpCode : Nat
  _prevProgramCounter : Nat
  _step : StepRequest
  _callstackManager : CallstackManager
  deriving DecidableEq

/-- The constructor: a fresh callstack and a fresh `StepRequest`; the two
"previous" members are not assigned by it and are taken as given. -/
def construct (prevOpCode prevProgramCounter : Nat) : State :=
  { _prevOpCode := prevOpCode % 256, _prevProgramCounter := prevProgramCounter % 65536,
    _step := {}, _callstackManager := {} }

/-- The test `_prevOpCode == 0x3F || _prevOpCode == 0x0F` (JSR, BRK). -/
def isCallLike (op : Nat) : Bool := op == 0x3F || op == 0x0F

/-- The test `_prevOpCode == 0x6F || _prevOpCode == 0x7F` (RTS, RTI). -/
def isReturnLike (op : Nat) : Bool := op == 0x6F || op == 0x7F

/-- `SpcDebugger::Reset`. -/
def Reset (s : State) : State :=
  { s with _callstackManager := {}, _prevOpCode := 0xFF }

/-- The body of the `ExecOpCode` branch of `ProcessRead` up to and including the
forced breaks; `opSize` is `DisassemblyInfo::GetOpSize(·, 0, CpuType::Spc)`.
Returns the new members and the break source. -/
def execOpCode (opSize : Nat → Nat) (s : State) (value : Nat) (w : SpcWorld)
    (addressInfo : AddressInfo) : State × BreakSource :=
  let pc := w.PC % 65536
  let cs :=
    if isCallLike s._prevOpCode then
      let sz := opSize s._prevOpCode % 256
      let returnPc := (s._prevProgramCounter + sz) % 65536
      let src := w.GetAbsoluteAddress s._prevProgramCounter
      let ret := w.GetAbsoluteAddress returnPc
      s._callstackManager.Push src s._prevProgramCounter addressInfo pc ret returnPc
    else if isReturnLike s._prevOpCode then
      s._callstackManager.Pop addressInfo pc
    else
      s._callstackManager
  let count1 :=
    if s._step.BreakAddress = (pc : Int) ∧ isReturnLike s._prevOpCode = true then 0
    else s._step.StepCount
  let count2 := if count1 > 0 then count1 - 1 else count1
  let forced : Int × BreakSource :=
    if w.SpcDebuggerEnabled then
      if value % 256 = 0x0F ∧ w.BreakOnBrk = true then (0, BreakSource.BreakOnBrk)
      else if value % 256 = 0xFF ∧ w.BreakOnStp = true then (0, BreakSource.BreakOnStp)
      else (count2, BreakSource.Unspecified)
    else (count2, BreakSource.Unspecified)
  ({ _prevOpCode := value % 256, _prevProgramCounter := pc,
     _step := { s._step with StepCount := forced.1 }, _callstackManager := cs }, forced.2)

/-- The trace-logger and disassembler calls at the head of the `ExecOpCode`
branch. -/
def traceEvents (w : SpcWorld) (addr : Nat) (addressInfo : AddressInfo) : List DebugEvent :=
  if w.IsCpuLogged || w.SpcDebuggerEnabled then
    DebugEvent.BuildCache addressInfo ::
      (if w.IsCpuLogged then [DebugEvent.Log (w.PC % 65536) addressInfo addr] else [])
  else []

/-- `SpcDebugger::ProcessRead`. -/
def ProcessRead (opSize : Nat → Nat) (s : State) (addr value : Nat)
    (type : MemoryOperationType) (w : SpcWorld) : State × List DebugEvent :=
  if type = MemoryOperationType.DummyRead then (s, [])
  else
    let addressInfo := w.GetAbsoluteAddress addr
    let operation : MemoryOperationInfo := { Address := addr, Value := value % 256, OpType := type }
    if type = MemoryOperationType.ExecOpCode then
      let r := execOpCode opSize s value w addressInfo
      (r.1, traceEvents w addr addressInfo ++
        [DebugEvent.ProcessMemoryExec addressInfo w.MasterClock,
         DebugEvent.ProcessBreakConditions (decide (r.1._step.StepCount = 0)) operation
           addressInfo r.2])
    else if type = MemoryOperationType.ExecOperand then
      (s, [DebugEvent.ProcessMemoryExec addressInfo w.MasterClock,
           DebugEvent.ProcessBreakConditions (decide (s._step.StepCount = 0)) operation
             addressInfo BreakSource.Unspecified])
    else
      (s, [DebugEvent.ProcessMemoryRead addressInfo w.MasterClock,
           DebugEvent.ProcessBreakConditions (decide (s._step.StepCount = 0)) operation
             addressInfo BreakSource.Unspecified])

/-- `SpcDebugger::ProcessWrite`. -/
def ProcessWrite (s : State) (addr value : Nat) (type : MemoryOperationType)
    (w : SpcWorld) : State × List DebugEvent :=
  let addressInfo : AddressInfo := { Address := (addr : Int), MemType := SnesMemoryType.SpcRam }
  let operation : MemoryOperationInfo := { Address := addr, Value := value % 256, OpType := type }
  (s, [DebugEvent.ProcessBreakConditions false operation addressInfo BreakSource.Unspecified,
       DebugEvent.InvalidateCache addressInfo,
       DebugEvent.ProcessMemoryWrite addressInfo w.MasterClock])

/-- `SpcDebugger::Run`. -/
def Run (s : State) : State :=
  { s with _step := {} }

/-- `SpcDebugger::Step`. -/
def Step (opSize : Nat → Nat) (s : State) (stepCount : Int) (type : StepType) : State :=
  let step : StepRequest := {}
  let step :=
    match type with
    | StepType.Step => { step with StepCount := stepCount }
    | StepType.StepOut => { step with BreakAddress := s._callstackManager.GetReturnAddress }
    | StepType.StepOver =>
      if isCallLike s._prevOpCode then
        { step with BreakAddress := (s._prevProgramCounter + opSize s._prevOpCode % 256 : Nat) }
      else
        { step with StepCount := 1 }
    | StepType.SpecificScanline => step
    | StepType.PpuStep => step
  { s with _step := step }

/-! ## Streams of calls -/

/-- The forced-break test of `ProcessRead`: the debugger is enabled and the
fetched opcode is BRK with `BreakOnBrk`, or STP with `BreakOnStp`. -/
def forcedBreak (value : Nat) (w : SpcWorld) : Bool :=
  w.SpcDebuggerEnabled &&
    ((value % 256 == 0x0F && w.BreakOnBrk) || (value % 256 == 0xFF && w.BreakOnStp))

/-- One call from the execution core into the debugger. -/
inductive Access where
  | Read (addr value : Nat) (type : MemoryOperationType) (w : SpcWorld)
  | Write (addr value : Nat) (type : MemoryOperationType) (w : SpcWorld)

namespace Access

/-- Dispatch to `ProcessRead` or `ProcessWrite`. -/
def apply (opSize : Nat → Nat) (s : State) : Access → State × List DebugEvent
  | Read addr value type w => ProcessRead opSize s addr value type w
  | Write addr value type w => ProcessWrite s addr value type w

/-- The access is an opcode fetch handled by `ProcessRead`. -/
def isFetch : Access → Bool
  | Read _ _ type _ => decide (type = MemoryOperationType.ExecOpCode)
  | Write _ _ _ _ => false

/-- The access is a dummy read handled by `ProcessRead`. -/
def isDummyRead : Access → Bool
  | Read _ _ type _ => decide (type = MemoryOperationType.DummyRead)
  | Write _ _ _ _ => false

/-- No forced BRK/STP break fires on this access. -/
def quiet : Access → Bool
  | Read _ value type w => !(decide (type = MemoryOperationType.ExecOpCode) && forcedBreak value w)
  | Write _ _ _ _ => true

/-- The access is an opcode fetch whose program counter is `target`. -/
def fetchesAt (target : Nat) : Access → Bool
  | Read _ _ type w => decide (type = MemoryOperationType.ExecOpCode) && decide (w.PC % 65536 = target)
  | Write _ _ _ _ => false

/-- The access does not fetch a call-like or return-like opcode. -/
def plain : Access → Bool
  | Read _ value type _ =>
    !(decide (type = MemoryOperationType.ExecOpCode) &&
      (isCallLike (value % 256) || isReturnLike (value % 256)))
  | Write _ _ _ _ => true

end Access

/-- Feed a stream of accesses to the debugger, collecting the collaborator
calls in order. -/
def runAccesses (opSize : Nat → Nat) : State → List Access → State × List DebugEvent
  | s, [] => (s, [])
  | s, a :: rest =>
    let r := a.apply opSize s
    let r2 := runAccesses opSize r.1 rest
    (r2.1, r.2 ++ r2.2)

/-- The pause flag of a `ProcessBreakConditions` call. -/
def DebugEvent.pauseFlag : DebugEvent → Option Bool
  | DebugEvent.ProcessBreakConditions pause _ _ _ => some pause
  | _ => none

/-- The pause flags forwarded to `Debugger::ProcessBreakConditions`, in order. -/
def forwardedPause (evs : List DebugEvent) : List Bool :=
  evs.filterMap DebugEvent.pauseFlag

/-- Number of opcode fetches in a stream. -/
def fetchCount (l : List Access) : Nat := l.countP Access.isFetch

/-- Number of accesses of a stream that reach `ProcessBreakConditions`
(all but the dummy reads). -/
def reported (l : List Access) : Nat := l.countP (fun a => !a.isDummyRead)

/-- Any call on the debugger: an access or a command. -/
inductive Call where
  | access (a : Access)
  | run
  | step (stepCount : Int) (type : StepType)
  | reset

/-- Perform one call. -/
def Call.apply (opSize : Nat → Nat) (s : State) : Call → State
  | Call.access a => (a.apply opSize s).1
  | Call.run => Run s
  | Call.step n t => Step opSize s n t
  | Call.reset => Reset s

/-- Perform a sequence of calls. -/
def runCalls (opSize : Nat → Nat) (s : State) (calls : List Call) : State :=
  calls.foldl (Call.apply opSize) s

/-- The step count `ProcessRead` leaves after an opcode fetch at `pc` on which
no forced break fires. -/
def countAfterFetch (s : State) (pc : Nat) : Int :=
  let c :=
    if s._step.BreakAddress = (pc : Int) ∧ isReturnLike s._prevOpCode = true then 0
    else s._step.StepCount
  if c > 0 then c - 1 else c

/-- A sample of the absent `DisassemblyInfo::GetOpSize` table, used in examples:
`CALL !abs` (0x3F) is three bytes and everything else counts as one. -/
def sampleOpSize (op : Nat) : Nat := if op = 0x3F then 3 else 1

/-- A sample world for examples: program counter `pc`, nothing logged, the given
debugger flags, every address in SPC RAM. -/
def sampleWorld (pc : Nat) (enabled brk stp : Bool) : SpcWorld :=
  { PC := pc, IsCpuLogged := false, SpcDebuggerEnabled := enabled, BreakOnBrk := brk,
    BreakOnStp := stp,
    GetAbsoluteAddress := fun a => { Address := (a : Int), MemType := SnesMemoryType.SpcRam },
    MasterClock := 0 }

/-- An opcode fetch of `value` at `pc` in the sample world with the debugger
disabled. -/
def sampleFetch (pc value : Nat) : Access :=
  Access.Read pc value MemoryOperationType.ExecOpCode (sampleWorld pc false false false)

/-- A step request holds a positive count only together with an absent break
address: what every request built by `Run` and `Step` satisfies. -/
def StepInv (s : State) : Prop := 0 < s._step.StepCount → s._step.BreakAddress < 0

/-- The access is an opcode fetch at the break address of `s` right after a
return-like opcode: the condition under which `ProcessRead` zeroes the count. -/
def hits (s : State) : Access → Bool
  | Access.Read _ _ type w =>
    decide (type = MemoryOperationType.ExecOpCode) &&
      (decide (s._step.BreakAddress = ((w.PC % 65536 : Nat) : Int)) && isReturnLike s._prevOpCode)
  | Access.Write _ _ _ _ => false

/-! ## Calls with an outcome -/

/-- `SpcDebugger::Step` together with its outcome. The C++ body holds no
`throw` and no early exit: whatever the step kind, control reaches
`_step.reset(new StepRequest(step))` and the call returns. -/
def StepCall (opSize : Nat → Nat) (s : State) (stepCount : Int) (type : StepType) :
    Except String State :=
  Except.ok (Step opSize s stepCount type)

/-- `SpcDebugger::GetAssembler`: throws `std::runtime_error`; `α` stands for the
pointee type `IAssembler`. The second component is the debugger after the call. -/
def GetAssembler (α : Type) (s : State) : Except String α × State :=
  (Except.error "Assembler not supported for SPC", s)

/-- `SpcDebugger::GetEventManager`: throws `std::runtime_error`; `α` stands for
the pointee type `IEventManager`. -/
def GetEventManager (α : Type) (s : State) : Except String α × State :=
  (Except.error "Event manager not supported for SPC", s)

/-- `SpcDebugger::GetCodeDataLogger`: throws `std::runtime_error`; `α` stands for
the pointee type `CodeDataLogger`. -/
def GetCodeDataLogger (α : Type) (s : State) : Except String α × State :=
  (Except.error "CDL not supported for SPC", s)

end SpcDebugger

/-!
# FDS audio (Core/NES/Mappers/FDS/ModChannel.h, FdsAudio.cpp)

`ModChannel` and `FdsAudio` as records of their members. `BaseFdsChannel`
(BaseFdsChannel.h) is not among the sources: its state is a type parameter `β`
and the members used here are the fields of `BaseFdsChannel β`. A `uint8_t`
array is a list; a lookup past the end, undefined in C++, reads 0.
-/

/-- The part of the absent base class `BaseFdsChannel` that `ModChannel` and
`FdsAudio` use: its four mutators and the members `_frequency` and `_gain`. -/
structure BaseFdsChannel (β : Type) where
  WriteReg : β → Nat → Nat → β
  TickEnvelope : β → Bool → β × Bool
  ResetTimer : β → β
  SetMasterEnvelopeSpeed : β → Nat → β
  frequency : β → Nat
  gain : β → Nat

/-- Members of `ModChannel`, with the inherited `BaseFdsChannel` part in `base`
and the initial values of the class declaration. -/
structure ModChannel (β : Type) where
  base : β
  _counter : Int := 0
  _modCounterDisabled : Bool := false
  _modCounterDisabledLatch : Bool := false
  _forceCarryOut : Bool := false
  _bit11CarryOut : Bool := false
  _modAccumulator : Nat := 0
  _modM2Counter : Nat := 0
  _modTable : List Nat := List.replicate 32 0
  _modTablePosition : Nat := 0
  _output : Nat := 0

namespace ModChannel

/-- The constant `ModReset = -0x80`. -/
def ModReset : Int := -0x80

/-- The table `_modLut[8] = { 0,1,2,4,ModReset,-4,-2,-1 }`. -/
def _modLut : List Int := [0, 1, 2, 4, ModReset, -4, -2, -1]

/-- Conversion of an `int` to `int8_t` (two's complement wrap). -/
def toInt8 (x : Int) : Int := (x + 128) % 256 - 128

/-- The `uint16_t` member `_frequency` of the base class. -/
def _frequency {β : Type} (ops : BaseFdsChannel β) (m : ModChannel β) : Nat :=
  ops.frequency m.base % 65536

/-- The `uint8_t` member `_gain` of the base class. -/
def _gain {β : Type} (ops : BaseFdsChannel β) (m : ModChannel β) : Nat :=
  ops.gain m.base % 256

/-- `ModChannel::IncrementAccumulator` (arithmetic in `uint32_t`). -/
def IncrementAccumulator {β : Type} (m : ModChannel β) (value : Nat) : ModChannel β :=
  if value = 0 then m
  else
    let sum := (m._modAccumulator + value) % 4294967296
    let acc := if sum > 0x3FFFF then sum - 0x40000 else sum
    { m with _bit11CarryOut := decide ((sum &&& 0xFFF) < (m._modAccumulator &&& 0xFFF)),
             _modAccumulator := acc }

/-- `ModChannel::UpdateModTablePosition`. -/
def UpdateModTablePosition {β : Type} (m : ModChannel β) : ModChannel β :=
  { m with _modTablePosition := (m._modAccumulator >>> 13) &&& 0x1F }

/-- `ModChannel::UpdateCounter`; the argument is converted to `int8_t`. -/
def UpdateCounter {β : Type} (m : ModChannel β) (value : Int) : ModChannel β :=
  let c := toInt8 value
  { m with _counter := if c ≥ 64 then toInt8 (c - 128)
                       else if c < -64 then toInt8 (c + 128)
                       else c }

/-- `ModChannel::WriteReg`. -/
def WriteReg {β : Type} (ops : BaseFdsChannel β) (m : ModChannel β) (addr value : Nat) :
    ModChannel β :=
  if addr = 0x4084 ∨ addr = 0x4086 then
    { m with base := ops.WriteReg m.base addr value }
  else if addr = 0x4085 then
    UpdateCounter m ((value &&& 0x7F : Nat) : Int)
  else if addr = 0x4087 then
    let disabled := (value &&& 0x80) == 0x80
    let m1 : ModChannel β :=
      { m with base := ops.WriteReg m.base addr value,
               _modCounterDisabled := disabled,
               _forceCarryOut := (value &&& 0x40) == 0x40 }
    if disabled then
      { m1 with _modAccumulator := m1._modAccumulator &&& 0x3E000 }
    else
      { m1 with _modCounterDisabledLatch := disabled }
  else m

/-- `ModChannel::WriteModTable`. -/
def WriteModTable {β : Type} (m : ModChannel β) (value : Nat) : ModChannel β :=
  if m._modCounterDisabled then
    UpdateModTablePosition
      (IncrementAccumulator
        { m with _modTable := m._modTable.set m._modTablePosition (value &&& 0x07) } 0x2000)
  else m

/-- The lookup `_modLut[_modTable[_modTablePosition]]`. -/
def currentOffset {β : Type} (m : ModChannel β) : Int :=
  _modLut.getD (m._modTable.getD m._modTablePosition 0) 0

/-- The block `if(_bit11CarryOut || _forceCarryOut) { ... }` of
`ModChannel::TickModulator`, run right after `IncrementAccumulator`. -/
def updateOnCarry {β : Type} (m2 : ModChannel β) : ModChannel β :=
  if m2._bit11CarryOut || m2._forceCarryOut then
    let m3 :=
      if !m2._modCounterDisabledLatch then
        let m4 := { m2 with _modCounterDisabledLatch := m2._modCounterDisabled }
        let offset := currentOffset m4
        UpdateCounter m4
          (if offset = ModReset then 0
           else if m4._modCounterDisabledLatch then m4._counter
           else m4._counter + offset)
      else m2
    UpdateModTablePosition m3
  else m2

/-- `ModChannel::TickModulator`; returns the channel and the `bool` result. -/
def TickModulator {β : Type} (ops : BaseFdsChannel β) (m : ModChannel β) (haltWaveform : Bool) :
    ModChannel β × Bool :=
  let c := (m._modM2Counter + 1) % 256
  if c = 16 then
    let m1 :=
      if !haltWaveform then
        updateOnCarry
          (IncrementAccumulator m (if m._forceCarryOut then 0x1000 else _frequency ops m))
      else m
    ({ m1 with _modM2Counter := 0 }, true)
  else ({ m with _modM2Counter := c }, false)

/-- `ModChannel::UpdateOutput`. On the `int32_t` value `temp`, `temp & 0x0f` is
`temp mod 16`, `temp & 0x800` is bit 11 and `temp >> 4` is the floor of
`temp / 16` (two's complement). -/
def UpdateOutput {β : Type} (ops : BaseFdsChannel β) (m : ModChannel β) (_volumePitch : Nat) :
    ModChannel β :=
  let temp : Int := m._counter * (_gain ops m : Int)
  let temp := if temp % 16 ≠ 0 ∧ (temp / 0x800) % 2 = 0 then temp + 0x20 else temp
  let temp := temp + 0x400
  { m with _output := ((temp / 16) % 256).toNat }

/-- `ModChannel::GetOutput`. -/
def GetOutput {β : Type} (m : ModChannel β) : Nat := m._output

/-- A freshly constructed channel over the base-class state `b`. -/
def init {β : Type} (b : β) : ModChannel β := { base := b }

end ModChannel

/-- One call on a `ModChannel`. -/
inductive ModCall where
  | WriteReg (addr value : Nat)
  | WriteModTable (value : Nat)
  | TickModulator (haltWaveform : Bool)
  | UpdateOutput (volumePitch : Nat)

/-- Perform one call; byte and address arguments are reduced to their width. -/
def ModCall.apply {β : Type} (ops : BaseFdsChannel β) (m : ModChannel β) : ModCall → ModChannel β
  | ModCall.WriteReg addr value => ModChannel.WriteReg ops m (addr % 65536) (value % 256)
  | ModCall.WriteModTable value => ModChannel.WriteModTable m (value % 256)
  | ModCall.TickModulator h => (ModChannel.TickModulator ops m h).1
  | ModCall.UpdateOutput p => ModChannel.UpdateOutput ops m (p % 65536)

/-- Perform a sequence of calls. -/
def runMod {β : Type} (ops : BaseFdsChannel β) (m : ModChannel β) (calls : List ModCall) :
    ModChannel β :=
  calls.foldl (ModCall.apply ops) m

/-- The addition of `value` to the accumulator carries out of bit 11: the low
twelve bits wrap. -/
def carriesOutOfBit11 (acc value : Nat) : Bool :=
  decide (acc % 0x1000 + value % 0x1000 ≥ 0x1000)

/-- The invariant of the mod unit: 18-bit accumulator, cached table position
equal to bits 13-17 of the accumulator, 32 table entries all below 8. -/
def ModInv {β : Type} (m : ModChannel β) : Prop :=
  m._modAccumulator < 0x40000 ∧
  m._modTablePosition = (m._modAccumulator >>> 13) &&& 0x1F ∧
  m._modTable.length = 32 ∧
  (∀ i, m._modTable.getD i 0 < 8)

/-- A sample of the absent base class, used in examples: the two frequency
registers (low byte at `$4082`/`$4086`, high nibble at `$4083`/`$4087`) and a
gain written through `$4080`/`$4084`. -/
structure SampleBase where
  lo : Nat := 0
  hi : Nat := 0
  gain : Nat := 0
  deriving DecidableEq

/-- The sample base-class operations. -/
def sampleBase : BaseFdsChannel SampleBase where
  WriteReg b addr value :=
    if addr % 4 = 2 then { b with lo := value % 256 }
    else if addr % 4 = 3 then { b with hi := value % 16 }
    else if addr % 4 = 0 then { b with gain := value % 64 }
    else b
  TickEnvelope b _ := (b, false)
  ResetTimer b := b
  SetMasterEnvelopeSpeed b _ := b
  frequency b := (b.hi % 16) * 256 + b.lo % 256
  gain b := b.gain

/-- Members of `FdsAudio` that FdsAudio.cpp reads or writes. FdsAudio.h is not
among the sources; the initial values are those of a zeroed wave unit. -/
structure FdsAudio (β : Type) where
  _volume : β
  _mod : ModChannel β
  _waveTable : List Nat := List.replicate 64 0
  _waveWriteEnabled : Bool := false
  _haltEnvelopes : Bool := false
  _haltWaveform : Bool := false
  _masterVolume : Nat := 0
  _waveAccumulator : Nat := 0
  _waveM2Counter : Nat := 0
  _wavePosition : Nat := 0
  _lastOutput : Nat := 0
  _lastGain : Nat := 0

namespace FdsAudio

/-- `FdsAudio::UpdateOutput`. The product `DACTable[..][..] * float(_lastGain)`
converted to `uint8_t` is the parameter `dac` (master volume, wave sample, last
gain); the second component lists the deltas passed to
`AddExpansionAudioDelta`. -/
def UpdateOutput {β : Type} (ops : BaseFdsChannel β) (dac : Nat → Nat → Nat → Nat)
    (a : FdsAudio β) : FdsAudio β × List Int :=
  let a1 :=
    if a._wavePosition = 0 then { a with _lastGain := min (ops.gain a._volume % 256) 32 } else a
  let outputLevel := dac a1._masterVolume (a1._waveTable.getD a1._wavePosition 0) a1._lastGain % 256
  if a1._lastOutput ≠ outputLevel then
    ({ a1 with _lastOutput := outputLevel }, [(outputLevel : Int) - (a1._lastOutput : Int)])
  else (a1, [])

/-- The wave-unit part of `FdsAudio::ClockAudio` (the `if(_haltWaveform)` /
`else if(++_waveM2Counter == 16)` statement), with `frequency` read at the head
of `ClockAudio`. -/
def clockWave {β : Type} (a : FdsAudio β) (frequency : Nat) : FdsAudio β :=
  if a._haltWaveform then
    { a with _waveAccumulator := 0, _wavePosition := ((0 : Nat) >>> 18) &&& 0x3F }
  else
    let c := (a._waveM2Counter + 1) % 256
    if c = 16 then
      let a1 :=
        if !a._waveWriteEnabled then
          let sum := (a._waveAccumulator +
            (((frequency * ModChannel.GetOutput a._mod) % 4294967296) &&& 0xFFFFF)) % 4294967296
          let acc := if sum > 0xFFFFFF then sum - 0x1000000 else sum
          { a with _waveAccumulator := acc, _wavePosition := (acc >>> 18) &&& 0x3F }
        else a
      { a1 with _waveM2Counter := 0 }
    else { a with _waveM2Counter := c }

/-- The envelope and modulator part of `FdsAudio::ClockAudio` (everything
before the wave unit). -/
def clockEnvelopes {β : Type} (ops : BaseFdsChannel β) (a : FdsAudio β) (frequency : Nat) :
    FdsAudio β :=
  let a1 :=
    if !a._haltEnvelopes then
      let v := (ops.TickEnvelope a._volume a._haltWaveform).1
      let mt := ops.TickEnvelope a._mod.base a._haltWaveform
      let mod1 : ModChannel β := { a._mod with base := mt.1 }
      { a with _volume := v,
               _mod := if mt.2 then ModChannel.UpdateOutput ops mod1 frequency else mod1 }
    else a
  let tm := ModChannel.TickModulator ops a1._mod a1._haltWaveform
  { a1 with _mod := if tm.2 then ModChannel.UpdateOutput ops tm.1 frequency else tm.1 }

/-- `FdsAudio::ClockAudio`. -/
def ClockAudio {β : Type} (ops : BaseFdsChannel β) (dac : Nat → Nat → Nat → Nat)
    (a : FdsAudio β) : FdsAudio β × List Int :=
  let frequency := ops.frequency a._volume % 65536
  UpdateOutput ops dac (clockWave (clockEnvelopes ops a frequency) frequency)

/-- `FdsAudio::WriteRegister`. -/
def WriteRegister {β : Type} (ops : BaseFdsChannel β) (a : FdsAudio β) (addr value : Nat) :
    FdsAudio β :=
  if addr ≤ 0x407F then
    if a._waveWriteEnabled then
      { a with _waveTable := a._waveTable.set (addr &&& 0x3F) (value &&& 0x3F) }
    else a
  else if addr = 0x4080 ∨ addr = 0x4082 then
    { a with _volume := ops.WriteReg a._volume addr value }
  else if addr = 0x4083 then
    let a1 : FdsAudio β :=
      { a with _haltEnvelopes := (value &&& 0x40) != 0, _haltWaveform := (value &&& 0x80) != 0 }
    let a2 : FdsAudio β :=
      if a1._haltEnvelopes then
        { a1 with _volume := ops.ResetTimer a1._volume,
                  _mod := { a1._mod with base := ops.ResetTimer a1._mod.base } }
      else a1
    { a2 with _volume := ops.WriteReg a2._volume addr value }
  else if addr = 0x4086 ∨ addr = 0x4087 then
    { a with _mod := ModChannel.WriteReg ops a._mod addr value }
  else if addr = 0x4084 ∨ addr = 0x4085 then
    let written := ModChannel.WriteReg ops a._mod addr value
    { a with _mod := ModChannel.UpdateOutput ops written (ops.frequency a._volume % 65536) }
  else if addr = 0x4088 then
    { a with _mod := ModChannel.WriteModTable a._mod value }
  else if addr = 0x4089 then
    { a with _masterVolume := value &&& 0x03, _waveWriteEnabled := (value &&& 0x80) == 0x80 }
  else if addr = 0x408A then
    { a with _volume := ops.SetMasterEnvelopeSpeed a._volume value,
             _mod := { a._mod with base := ops.SetMasterEnvelopeSpeed a._mod.base value } }
  else a

/-- A zeroed audio unit over the base-class states of its two channels. -/
def init {β : Type} (volume modBase : β) : FdsAudio β :=
  { _volume := volume, _mod := ModChannel.init modBase }

end FdsAudio

/-- One call on the audio unit. -/
inductive FdsCall where
  | ClockAudio
  | WriteRegister (addr value : Nat)

/-- Perform one call; address and byte are reduced to their width. -/
def FdsCall.apply {β : Type} (ops : BaseFdsChannel β) (dac : Nat → Nat → Nat → Nat)
    (a : FdsAudio β) : FdsCall → FdsAudio β
  | FdsCall.ClockAudio => (FdsAudio.ClockAudio ops dac a).1
  | FdsCall.WriteRegister addr value => FdsAudio.WriteRegister ops a (addr % 65536) (value % 256)

/-- Perform a sequence of calls. -/
def runFds {β : Type} (ops : BaseFdsChannel β) (dac : Nat → Nat → Nat → Nat) (a : FdsAudio β)
    (calls : List FdsCall) : FdsAudio β :=
  calls.foldl (FdsCall.apply ops dac) a

/-- The invariant of the wave unit: 24-bit accumulator and cached position equal
to its top six bits. -/
def WaveInv {β : Type} (a : FdsAudio β) : Prop :=
  a._waveAccumulator ≤ 0xFFFFFF ∧ a._wavePosition = (a._waveAccumulator >>> 18) &&& 0x3F

/-- A sample DAC response for examples: sample times gain, scaled down. -/
def sampleDac (_masterVolume wave gain : Nat) : Nat := wave * gain / 32

/-- A call sequence that leaves a stale carry flag: fill the mod table with 1
(mod unit disabled), enable it with frequency 0xFFF, tick 32 times (the second
addition carries out of bit 11), set the frequency to 0 and tick 15 times. -/
def staleCarryCalls : List ModCall :=
  [ModCall.WriteReg 0x4087 0x80] ++ List.replicate 32 (ModCall.WriteModTable 1) ++
  [ModCall.WriteReg 0x4086 0xFF, ModCall.WriteReg 0x4087 0x0F] ++
  List.replicate 32 (ModCall.TickModulator false) ++
  [ModCall.WriteReg 0x4086 0x00, ModCall.WriteReg 0x4087 0x00] ++
  List.replicate 15 (ModCall.TickModulator false)

/-- A call sequence that leaves a non-zero wave accumulator with the waveform
halted and wave write enabled: pitch 0xFF, sixteen clocks, then `$4089 = 0x80`
and `$4083 = 0x80`. -/
def haltedWriteCalls : List FdsCall :=
  [FdsCall.WriteRegister 0x4082 0xFF] ++ List.replicate 16 FdsCall.ClockAudio ++
  [FdsCall.WriteRegister 0x4089 0x80, FdsCall.WriteRegister 0x4083 0x80]

/-! ## Register reads -/

namespace ModChannel

/-- `ModChannel::GetCounter`. -/
def GetCounter {β : Type} (m : ModChannel β) : Int := m._counter

/-- `ModChannel::GetModAccumulator`. -/
def GetModAccumulator {β : Type} (m : ModChannel β) : Nat := m._modAccumulator

/-- `ModChannel::GetCounterIncrement`; the result is a value from 0 to 15. After
`offset += 8` on a negative offset the value is not negative, so `offset & 0x7`
is `offset mod 8`. -/
def GetCounterIncrement {β : Type} (m : ModChannel β) : Nat :=
  let offset := currentOffset m
  if offset = ModReset then 0xC
  else
    let offset := if m._modCounterDisabledLatch then 0 else offset
    let offset := if offset < 0 then toInt8 (offset + 8) else offset
    let low := (offset % 8).toNat
    low ||| ((low &&& 0x4) <<< 1)

end ModChannel

namespace FdsAudio

/-- `FdsAudio::ReadRegister`; `openBus` is the byte returned by
`_console->GetMemoryManager()->GetOpenBus()`. Every operand of `|=` is a byte,
so no truncation to `uint8_t` takes place. On the `int8_t` counter,
`GetCounter() & 0x7F` is the counter modulo 128. -/
def ReadRegister {β : Type} (ops : BaseFdsChannel β) (a : FdsAudio β) (addr openBus : Nat) : Nat :=
  let value := openBus % 256
  if addr ≤ 0x407F then
    if a._waveWriteEnabled then
      (value &&& 0xC0) ||| a._waveTable.getD (addr &&& 0x3F) 0
    else
      (value &&& 0xC0) ||| a._waveTable.getD a._wavePosition 0
  else if addr = 0x4090 then
    (value &&& 0xC0) ||| (ops.gain a._volume % 256)
  else if addr = 0x4091 then
    (a._waveAccumulator >>> 12) &&& 0xFF
  else if addr = 0x4092 then
    (value &&& 0xC0) ||| ModChannel._gain ops a._mod
  else if addr = 0x4093 then
    (value &&& 0x80) ||| ((ModChannel.GetModAccumulator a._mod >>> 5) &&& 0x7F)
  else if addr = 0x4094 then
    (ModChannel.GetOutput a._mod >>> 4) &&& 0xFF
  else if addr = 0x4095 then
    (value &&& 0xF0) ||| ModChannel.GetCounterIncrement a._mod
  else if addr = 0x4096 then
    (value &&& 0xC0) ||| (a._wavePosition &&& 0x3F)
  else if addr = 0x4097 then
    (value &&& 0xC0) ||| (ModChannel.GetCounter a._mod % 128).toNat
  else value

end FdsAudio

namespace SpcDebugger

/-! ## Basic facts -/

theorem forwardedPause_append (a b : List DebugEvent) :
    forwardedPause (a ++ b) = forwardedPause a ++ forwardedPause b := by
  simp [forwardedPause, List.filterMap_append]

theorem forwardedPause_traceEvents (w : SpcWorld) (addr : Nat) (info : AddressInfo) :
    forwardedPause (traceEvents w addr info) = [] := by
  unfold traceEvents
  split
  · split <;> simp [forwardedPause, DebugEvent.pauseFlag]
  · simp [forwardedPause]

theorem runAccesses_append (opSize : Nat → Nat) (s : State) (l1 l2 : List Access) :
    runAccesses opSize s (l1 ++ l2) =
      ((runAccesses opSize (runAccesses opSize s l1).1 l2).1,
       (runAccesses opSize s l1).2 ++ (runAccesses opSize (runAccesses opSize s l1).1 l2).2) := by
  induction l1 generalizing s with
  | nil => simp [runAccesses]
  | cons a rest ih => simp [runAccesses, ih, List.append_assoc]

/-- An opcode fetch: members after the call. -/
theorem fetch_state (opSize : Nat → Nat) (s : State) (addr value : Nat) (w : SpcWorld) :
    (ProcessRead opSize s addr value MemoryOperationType.ExecOpCode w).1 =
      (execOpCode opSize s value w (w.GetAbsoluteAddress addr)).1 := by
  simp [ProcessRead]

/-- An opcode fetch forwards `StepCount == 0` evaluated after the update. -/
theorem fetch_pause (opSize : Nat → Nat) (s : State) (addr value : Nat) (w : SpcWorld) :
    forwardedPause (ProcessRead opSize s addr value MemoryOperationType.ExecOpCode w).2 =
      [decide ((execOpCode opSize s value w (w.GetAbsoluteAddress addr)).1._step.StepCount = 0)] := by
  simp [ProcessRead, forwardedPause_append, forwardedPause_traceEvents]
  simp [forwardedPause, DebugEvent.pauseFlag]

/-- Without a forced break the step count after a fetch is `countAfterFetch`. -/
theorem execOpCode_count (opSize : Nat → Nat) (s : State) (value : Nat) (w : SpcWorld)
    (info : AddressInfo) (hq : forcedBreak value w = false) :
    (execOpCode opSize s value w info).1._step.StepCount = countAfterFetch s (w.PC % 65536) := by
  unfold forcedBreak at hq
  unfold execOpCode countAfterFetch
  cases hE : w.SpcDebuggerEnabled
  · simp
  · simp only [hE, Bool.true_and, Bool.or_eq_false_iff, Bool.and_eq_false_iff, beq_eq_false_iff_ne,
      ne_eq] at hq
    obtain ⟨h1, h2⟩ := hq
    have h1' : ¬ (value % 256 = 0x0F ∧ w.BreakOnBrk = true) := by
      rintro ⟨a, b⟩; rcases h1 with h | h <;> simp_all
    have h2' : ¬ (value % 256 = 0xFF ∧ w.BreakOnStp = true) := by
      rintro ⟨a, b⟩; rcases h2 with h | h <;> simp_all
    simp [h1', h2']

/-- A fetch never changes the break address. -/
theorem execOpCode_breakAddress (opSize : Nat → Nat) (s : State) (value : Nat) (w : SpcWorld)
    (info : AddressInfo) :
    (execOpCode opSize s value w info).1._step.BreakAddress = s._step.BreakAddress := by
  simp [execOpCode]

/-- Accesses other than opcode fetches leave every member unchanged. -/
theorem apply_nonfetch (opSize : Nat → Nat) (s : State) (a : Access) (h : a.isFetch = false) :
    (a.apply opSize s).1 = s := by
  cases a with
  | Read addr value type w =>
    simp only [Access.isFetch, decide_eq_false_iff_not] at h
    simp only [Access.apply, ProcessRead, h, if_false]
    split <;> [rfl; (split <;> rfl)]
  | Write addr value type w => rfl

/-- An access after which the step count is not zero forwards `false` (or
nothing at all when it is a dummy read). -/
theorem apply_pause_of_ne_zero (opSize : Nat → Nat) (s : State) (a : Access)
    (h : (a.apply opSize s).1._step.StepCount ≠ 0) :
    forwardedPause (a.apply opSize s).2 = List.replicate (reported [a]) false := by
  cases a with
  | Write addr value type w =>
    simp [Access.apply, ProcessWrite, forwardedPause, DebugEvent.pauseFlag, reported,
      Access.isDummyRead]
  | Read addr value type w =>
    cases type
    case ExecOpCode =>
      rw [Access.apply, fetch_pause]
      rw [Access.apply, fetch_state] at h
      simp [h, reported, Access.isDummyRead]
    all_goals
      simp [Access.apply, ProcessRead] at h
      simp [Access.apply, ProcessRead, forwardedPause, DebugEvent.pauseFlag, reported,
        Access.isDummyRead, h]

theorem reported_cons (a : Access) (l : List Access) :
    reported (a :: l) = reported [a] + reported l := by
  simp only [reported, List.countP_cons, List.countP_nil]
  omega

theorem fetchCount_cons (a : Access) (l : List Access) :
    fetchCount (a :: l) = fetchCount l + (if a.isFetch = true then 1 else 0) := by
  simp [fetchCount, List.countP_cons]

/-- With no break address to match, a quiet access decrements a positive count
on an opcode fetch and changes nothing else of the step request. -/
theorem apply_step_noBreakAddress (opSize : Nat → Nat) (s : State) (a : Access)
    (hq : a.quiet = true) (hBA : s._step.BreakAddress < 0) :
    (a.apply opSize s).1._step =
      { StepCount := if a.isFetch = true ∧ 0 < s._step.StepCount then s._step.StepCount - 1
                     else s._step.StepCount,
        BreakAddress := s._step.BreakAddress } := by
  cases hf : a.isFetch
  · rw [apply_nonfetch opSize s a hf]; simp
  · cases a with
    | Write addr value type w => simp [Access.isFetch] at hf
    | Read addr value type w =>
      simp only [Access.isFetch, decide_eq_true_eq] at hf
      subst hf
      have hq' : forcedBreak value w = false := by simpa [Access.quiet] using hq
      have hc := execOpCode_count opSize s value w (w.GetAbsoluteAddress addr) hq'
      have hb := execOpCode_breakAddress opSize s value w (w.GetAbsoluteAddress addr)
      rw [Access.apply, fetch_state]
      have hne : ¬ (s._step.BreakAddress = ((w.PC % 65536 : Nat) : Int)) := by omega
      cases hs : (execOpCode opSize s value w (w.GetAbsoluteAddress addr)).1._step with
      | mk c b =>
        rw [hs] at hc hb
        simp only at hc hb
        subst hb
        simp only [countAfterFetch, hne, false_and, if_false] at hc
        simp only [true_and, StepRequest.mk.injEq, and_true]
        rw [hc]

/-- Counting down: while fewer opcode fetches have happened than the remaining
count, every forwarded flag is `false` and the count has dropped by the number
of fetches. -/
theorem run_countdown (opSize : Nat → Nat) (l : List Access) :
    ∀ s : State, l.all Access.quiet = true → s._step.BreakAddress < 0 →
      (fetchCount l : Int) < s._step.StepCount →
      (runAccesses opSize s l).1._step =
        { StepCount := s._step.StepCount - fetchCount l, BreakAddress := s._step.BreakAddress } ∧
      forwardedPause (runAccesses opSize s l).2 = List.replicate (reported l) false := by
  induction l with
  | nil => intro s _ _ _; simp [runAccesses, fetchCount, reported, forwardedPause]
  | cons a rest ih =>
    intro s hq hBA hc
    simp only [List.all_cons, Bool.and_eq_true] at hq
    have hstep := apply_step_noBreakAddress opSize s a hq.1 hBA
    rw [fetchCount_cons] at hc
    have hcnt : (a.apply opSize s).1._step.StepCount =
        s._step.StepCount - ((if a.isFetch = true then 1 else 0 : Nat) : Int) := by
      rw [hstep]; simp only
      cases hf : a.isFetch
      · simp
      · have : 0 < s._step.StepCount := by omega
        simp [this]
    have hba : (a.apply opSize s).1._step.BreakAddress = s._step.BreakAddress := by
      rw [hstep]
    have hrest := ih (a.apply opSize s).1 hq.2 (by rw [hba]; exact hBA)
      (by rw [hcnt]; split_ifs at hc ⊢ <;> push_cast at hc ⊢ <;> omega)
    have hne : (a.apply opSize s).1._step.StepCount ≠ 0 := by
      rw [hcnt]; split_ifs at hc ⊢ <;> push_cast at hc ⊢ <;> omega
    refine ⟨?_, ?_⟩
    · simp only [runAccesses]
      rw [hrest.1, hcnt, hba, fetchCount_cons]
      simp only [StepRequest.mk.injEq, and_true]
      split_ifs <;> push_cast <;> omega
    · simp only [runAccesses, forwardedPause_append]
      rw [apply_pause_of_ne_zero opSize s a hne, hrest.2, reported_cons a rest,
        List.replicate_add]

/-- Free run: with a negative count and no break address the request never
changes and every forwarded flag is `false`. -/
theorem run_free (opSize : Nat → Nat) (l : List Access) :
    ∀ s : State, l.all Access.quiet = true → s._step.BreakAddress < 0 →
      s._step.StepCount < 0 →
      (runAccesses opSize s l).1._step = s._step ∧
      forwardedPause (runAccesses opSize s l).2 = List.replicate (reported l) false := by
  induction l with
  | nil => intro s _ _ _; simp [runAccesses, reported, forwardedPause]
  | cons a rest ih =>
    intro s hq hBA hc
    simp only [List.all_cons, Bool.and_eq_true] at hq
    have hstep : (a.apply opSize s).1._step = s._step := by
      rw [apply_step_noBreakAddress opSize s a hq.1 hBA]
      have : ¬ (0 < s._step.StepCount) := by omega
      simp [this]
    have hrest := ih (a.apply opSize s).1 hq.2 (by rw [hstep]; exact hBA) (by rw [hstep]; exact hc)
    have hne : (a.apply opSize s).1._step.StepCount ≠ 0 := by rw [hstep]; omega
    refine ⟨?_, ?_⟩
    · simp only [runAccesses]; rw [hrest.1, hstep]
    · simp only [runAccesses, forwardedPause_append]
      rw [apply_pause_of_ne_zero opSize s a hne, hrest.2, reported_cons a rest,
        List.replicate_add]

/-! ## Step(n, Step) -/

/-- C1: after `Step(n, StepType::Step)` (any `n` larger than the number of opcode
fetches seen so far, hence `n ≥ 1`), as long as no forced BRK/STP break fires,
every access of a stream holding fewer than `n` opcode fetches forwards
`pause = false`, whatever operand fetches, reads, writes and dummy reads are
interleaved, and the opcode fetch that follows forwards `pause = true` exactly
when it is the `n`-th one. -/
theorem step_pauses_on_nth_fetch (opSize : Nat → Nat) (s : State) (n : Int)
    (pre : List Access) (addr value : Nat) (w : SpcWorld)
    (hpre : pre.all Access.quiet = true) (hq : forcedBreak value w = false)
    (hcount : (fetchCount pre : Int) < n) :
    forwardedPause (runAccesses opSize (Step opSize s n StepType.Step) pre).2
        = List.replicate (reported pre) false ∧
    forwardedPause (ProcessRead opSize (runAccesses opSize (Step opSize s n StepType.Step) pre).1
        addr value MemoryOperationType.ExecOpCode w).2
        = [decide ((fetchCount pre : Int) + 1 = n)] := by
  have h := run_countdown opSize pre (Step opSize s n StepType.Step) hpre
    (by simp [Step]) (by simpa [Step] using hcount)
  refine ⟨h.2, ?_⟩
  rw [fetch_pause, execOpCode_count opSize _ value w _ hq]
  have hsc : (runAccesses opSize (Step opSize s n StepType.Step) pre).1._step.StepCount
      = n - (fetchCount pre : Int) := by rw [h.1]; simp [Step]
  have hba : (runAccesses opSize (Step opSize s n StepType.Step) pre).1._step.BreakAddress
      = -1 := by rw [h.1]; simp [Step]
  have hne : ¬ ((-1 : Int) = ((w.PC % 65536 : Nat) : Int)) := by omega
  have hpos : (n - (fetchCount pre : Int)) > 0 := by omega
  have hval : countAfterFetch (runAccesses opSize (Step opSize s n StepType.Step) pre).1
      (w.PC % 65536) = n - (fetchCount pre : Int) - 1 := by
    simp only [countAfterFetch, hsc, hba, hne, false_and, if_false]
    rw [if_pos hpos]
  rw [hval]
  congr 1
  apply decide_eq_decide.mpr
  constructor <;> intro h' <;> omega

/-- Witness for C1 with `n = 3`: two opcode fetches with an operand fetch and a
read between them forward `false`, and the third opcode fetch forwards `true`;
the three fetches alone give `false, false, true`. -/
theorem step_pauses_on_nth_fetch_witness :
    (forwardedPause (runAccesses sampleOpSize (Step sampleOpSize (construct 0xFF 0) 3 StepType.Step)
        [sampleFetch 0x200 0xE8,
         Access.Read 0x201 0x10 MemoryOperationType.ExecOperand (sampleWorld 0x201 false false false),
         Access.Read 0x10 0x00 MemoryOperationType.Read (sampleWorld 0x202 false false false),
         sampleFetch 0x202 0x00]).2 = List.replicate 4 false ∧
     forwardedPause (ProcessRead sampleOpSize
        (runAccesses sampleOpSize (Step sampleOpSize (construct 0xFF 0) 3 StepType.Step)
          [sampleFetch 0x200 0xE8,
           Access.Read 0x201 0x10 MemoryOperationType.ExecOperand (sampleWorld 0x201 false false false),
           Access.Read 0x10 0x00 MemoryOperationType.Read (sampleWorld 0x202 false false false),
           sampleFetch 0x202 0x00]).1
        0x203 0x00 MemoryOperationType.ExecOpCode (sampleWorld 0x203 false false false)).2
        = [decide (((2 : Nat) : Int) + 1 = 3)]) ∧
    forwardedPause (runAccesses sampleOpSize (Step sampleOpSize (construct 0xFF 0) 3 StepType.Step)
        [sampleFetch 0x200 0xE8, sampleFetch 0x202 0x00, sampleFetch 0x203 0x00]).2
        = [false, false, true] :=
  ⟨step_pauses_on_nth_fetch sampleOpSize (construct 0xFF 0) 3
      [sampleFetch 0x200 0xE8,
       Access.Read 0x201 0x10 MemoryOperationType.ExecOperand (sampleWorld 0x201 false false false),
       Access.Read 0x10 0x00 MemoryOperationType.Read (sampleWorld 0x202 false false false),
       sampleFetch 0x202 0x00]
      0x203 0x00 (sampleWorld 0x203 false false false) (by decide) (by decide) (by decide),
   by decide⟩

/-! ## The pause rule of an opcode fetch -/

/-- An opcode fetch leaves a positive count only where there was one. -/
theorem execOpCode_count_pos (opSize : Nat → Nat) (s : State) (value : Nat) (w : SpcWorld)
    (info : AddressInfo) (h : 0 < (execOpCode opSize s value w info).1._step.StepCount) :
    0 < s._step.StepCount := by
  simp only [execOpCode] at h
  split_ifs at h <;> omega

theorem stepInv_access (opSize : Nat → Nat) (s : State) (a : Access) (h : StepInv s) :
    StepInv (a.apply opSize s).1 := by
  cases hf : a.isFetch
  · rw [apply_nonfetch opSize s a hf]; exact h
  · cases a with
    | Write addr value type w => simp [Access.isFetch] at hf
    | Read addr value type w =>
      simp only [Access.isFetch, decide_eq_true_eq] at hf
      subst hf
      intro hpos
      rw [Access.apply, fetch_state] at hpos ⊢
      rw [execOpCode_breakAddress]
      exact h (execOpCode_count_pos opSize s value w _ hpos)

theorem stepInv_call (opSize : Nat → Nat) (s : State) (c : Call) (h : StepInv s) :
    StepInv (c.apply opSize s) := by
  cases c with
  | access a => exact stepInv_access opSize s a h
  | run => intro hpos; simp [Call.apply, Run] at hpos
  | reset => exact h
  | step n t =>
    intro hpos
    cases t <;> simp only [Call.apply, Step] at hpos ⊢
    · simp
    · simp at hpos
    · split at hpos
      · simp at hpos
      · rename_i hc; simp [hc]
    · simp at hpos
    · simp at hpos

theorem stepInv_runCalls (opSize : Nat → Nat) (calls : List Call) :
    ∀ s : State, StepInv s → StepInv (runCalls opSize s calls) := by
  induction calls with
  | nil => intro s h; exact h
  | cons c rest ih =>
    intro s h
    exact ih (c.apply opSize s) (stepInv_call opSize s c h)

/-- C2: in every state the debugger reaches from its constructor through any
sequence of `ProcessRead`, `ProcessWrite`, `Run`, `Step` and `Reset`, an opcode
fetch on which no forced BRK/STP break fires forwards `pause = true` exactly
when the remaining count after its decrement-if-positive is 0 or the break
address equals the current PC and the previous opcode is 0x6F or 0x7F; and the
count goes down by exactly one exactly when it was positive. -/
theorem fetch_pause_rule (opSize : Nat → Nat) (op0 pc0 : Nat) (calls : List Call)
    (addr value : Nat) (w : SpcWorld) (hq : forcedBreak value w = false) :
    forwardedPause (ProcessRead opSize (runCalls opSize (construct op0 pc0) calls) addr value
        MemoryOperationType.ExecOpCode w).2 =
      [decide ((if 0 < (runCalls opSize (construct op0 pc0) calls)._step.StepCount
                then (runCalls opSize (construct op0 pc0) calls)._step.StepCount - 1
                else (runCalls opSize (construct op0 pc0) calls)._step.StepCount) = 0 ∨
               ((runCalls opSize (construct op0 pc0) calls)._step.BreakAddress
                  = ((w.PC % 65536 : Nat) : Int) ∧
                (isReturnLike (runCalls opSize (construct op0 pc0) calls)._prevOpCode = true)))] ∧
    ((ProcessRead opSize (runCalls opSize (construct op0 pc0) calls) addr value
        MemoryOperationType.ExecOpCode w).1._step.StepCount
        = (runCalls opSize (construct op0 pc0) calls)._step.StepCount - 1
      ↔ 0 < (runCalls opSize (construct op0 pc0) calls)._step.StepCount) := by
  have hinv : StepInv (runCalls opSize (construct op0 pc0) calls) :=
    stepInv_runCalls opSize calls _ (by intro h; simp [construct] at h)
  generalize runCalls opSize (construct op0 pc0) calls = s at hinv ⊢
  rw [fetch_pause, fetch_state, execOpCode_count opSize s value w _ hq]
  unfold StepInv at hinv
  have hpc : (0 : Int) ≤ ((w.PC % 65536 : Nat) : Int) := Int.ofNat_nonneg _
  by_cases hm : s._step.BreakAddress = ((w.PC % 65536 : Nat) : Int) ∧
      isReturnLike s._prevOpCode = true
  · have hnp : ¬ (0 < s._step.StepCount) := by
      intro hp; have := hinv hp; omega
    simp only [countAfterFetch, hm, and_self, if_true, or_true, decide_True]
    refine ⟨by simp, ?_⟩
    constructor
    · intro h'; simp at h'; omega
    · intro h'; exact absurd h' hnp
  · simp only [countAfterFetch, hm, if_false, or_false]
    refine ⟨by simp [gt_iff_lt], ?_⟩
    constructor
    · intro h'; split_ifs at h' with hp <;> [exact hp; omega]
    · intro hp; simp [gt_iff_lt, hp]

/-- Witness for C2: after `Step(2)` and one opcode fetch the count is 1; the
next fetch brings it to 0 and pauses. -/
theorem fetch_pause_rule_witness :
    forwardedPause (ProcessRead sampleOpSize
        (runCalls sampleOpSize (construct 0xFF 0)
          [Call.step 2 StepType.Step, Call.access (sampleFetch 0x200 0xE8)])
        0x202 0x00 MemoryOperationType.ExecOpCode (sampleWorld 0x202 false false false)).2
      = [true] ∧
    (ProcessRead sampleOpSize
        (runCalls sampleOpSize (construct 0xFF 0)
          [Call.step 2 StepType.Step, Call.access (sampleFetch 0x200 0xE8)])
        0x202 0x00 MemoryOperationType.ExecOpCode
        (sampleWorld 0x202 false false false)).1._step.StepCount = 0 :=
  have h := fetch_pause_rule sampleOpSize 0xFF 0
    [Call.step 2 StepType.Step, Call.access (sampleFetch 0x200 0xE8)]
    0x202 0x00 (sampleWorld 0x202 false false false) (by decide)
  ⟨h.1.trans (by decide), (h.2.mpr (by decide)).trans (by decide)⟩

/-! ## Data accesses -/

/-- C3 fails as stated: after `Step(1, Step)` and one opcode fetch the count is
0, and a following data read (kind `Read`) forwards `pause = true`; the same
happens on a data read right after `Step(0, Step)`. -/
theorem data_read_forwards_pause_counterexample :
    forwardedPause (ProcessRead sampleOpSize
        (runCalls sampleOpSize (construct 0xFF 0)
          [Call.step 1 StepType.Step, Call.access (sampleFetch 0x200 0x00)])
        0x10 0x00 MemoryOperationType.Read (sampleWorld 0x201 false false false)).2 = [true] ∧
    forwardedPause (ProcessRead sampleOpSize
        (Step sampleOpSize (construct 0xFF 0) 0 StepType.Step)
        0x10 0x00 MemoryOperationType.Read (sampleWorld 0x200 false false false)).2 = [true] := by
  decide

/-- C3 (amended): `ProcessWrite` always forwards `pause = false`; `ProcessRead`
with kind `Read` forwards `_step->StepCount == 0`, that is `true` exactly when
the remaining count is already 0; neither changes any member, so a data access
never brings a step request to completion. -/
theorem data_access_pause_flag (opSize : Nat → Nat) (s : State) (addr value : Nat)
    (type : MemoryOperationType) (w : SpcWorld) :
    forwardedPause (ProcessWrite s addr value type w).2 = [false] ∧
    (ProcessWrite s addr value type w).1 = s ∧
    forwardedPause (ProcessRead opSize s addr value MemoryOperationType.Read w).2
      = [decide (s._step.StepCount = 0)] ∧
    (ProcessRead opSize s addr value MemoryOperationType.Read w).1 = s := by
  refine ⟨?_, rfl, ?_, ?_⟩
  · simp [ProcessWrite, forwardedPause, DebugEvent.pauseFlag]
  · simp [ProcessRead, forwardedPause, DebugEvent.pauseFlag]
  · simp [ProcessRead]

/-! ## Waiting for a break address -/

/-- While the count is absent, a quiet access forwards `true` exactly when it
hits the break address, and then zeroes the count; otherwise the request is
unchanged. -/
theorem waiting_step (opSize : Nat → Nat) (s : State) (a : Access) (hq : a.quiet = true)
    (hc : s._step.StepCount < 0) :
    forwardedPause (a.apply opSize s).2 = List.replicate (reported [a]) (hits s a) ∧
    (a.apply opSize s).1._step =
      (if hits s a = true then { s._step with StepCount := 0 } else s._step) := by
  cases a with
  | Write addr value type w =>
    simp [Access.apply, ProcessWrite, forwardedPause, DebugEvent.pauseFlag, reported,
      Access.isDummyRead, hits]
  | Read addr value type w =>
    cases type
    case ExecOpCode =>
      have hq' : forcedBreak value w = false := by simpa [Access.quiet] using hq
      have hcnt := execOpCode_count opSize s value w (w.GetAbsoluteAddress addr) hq'
      have hb := execOpCode_breakAddress opSize s value w (w.GetAbsoluteAddress addr)
      rw [Access.apply, fetch_pause, fetch_state]
      cases hs : (execOpCode opSize s value w (w.GetAbsoluteAddress addr)).1._step with
      | mk c b =>
        rw [hs] at hcnt hb
        simp only at hcnt hb
        subst hb
        by_cases hm : s._step.BreakAddress = ((w.PC % 65536 : Nat) : Int) ∧
            isReturnLike s._prevOpCode = true
        · simp only [countAfterFetch, hm, and_self, if_true] at hcnt
          simp [hcnt, hits, hm.1, hm.2, reported, Access.isDummyRead]
        · simp only [countAfterFetch, hm, if_false] at hcnt
          have hnp : ¬ (s._step.StepCount > 0) := by omega
          rw [if_neg hnp] at hcnt
          have hne : ¬ (s._step.StepCount = 0) := by omega
          have hh : hits s (Access.Read addr value MemoryOperationType.ExecOpCode w) = false := by
            simp only [hits, decide_True, Bool.true_and, Bool.and_eq_false_iff,
              decide_eq_false_iff_not]
            by_cases h1 : s._step.BreakAddress = ((w.PC % 65536 : Nat) : Int)
            · right
              have : ¬ (isReturnLike s._prevOpCode = true) := fun h2 => hm ⟨h1, h2⟩
              simpa using this
            · left; exact h1
          simp [hcnt, hh, hne, reported, Access.isDummyRead]
    all_goals
      have hne : ¬ (s._step.StepCount = 0) := by omega
      simp [Access.apply, ProcessRead, forwardedPause, DebugEvent.pauseFlag, reported,
        Access.isDummyRead, hits, hne]

/-- While no access has hit the break address, an absent count stays absent,
the request is unchanged and every forwarded flag is `false`. -/
theorem run_waiting (opSize : Nat → Nat) (l : List Access) :
    ∀ s : State, l.all Access.quiet = true → s._step.StepCount < 0 →
      (∀ b ∈ forwardedPause (runAccesses opSize s l).2, b = false) →
      (runAccesses opSize s l).1._step = s._step := by
  induction l with
  | nil => intro s _ _ _; rfl
  | cons a rest ih =>
    intro s hq hc hnone
    simp only [List.all_cons, Bool.and_eq_true] at hq
    obtain ⟨hflag, hstep⟩ := waiting_step opSize s a hq.1 hc
    simp only [runAccesses, forwardedPause_append, List.mem_append] at hnone
    have hstay : (a.apply opSize s).1._step = s._step := by
      cases hh : hits s a
      · rw [hstep, hh]; simp
      · exfalso
        have hnd : a.isDummyRead = false := by
          cases a with
          | Write _ _ _ _ => rfl
          | Read _ _ type _ =>
            cases type <;> simp [hits] at hh
            simp [Access.isDummyRead]
        have : true ∈ forwardedPause (a.apply opSize s).2 := by
          rw [hflag, hh]; simp [reported, hnd]
        exact absurd (hnone true (Or.inl this)) (by decide)
    have := ih (a.apply opSize s).1 hq.2 (by rw [hstay]; exact hc)
      (fun b hb => hnone b (Or.inr hb))
    simp only [runAccesses]
    rw [this, hstay]

/-- The request `Step(_, StepOver)` installs after a call-like opcode. -/
theorem stepOver_request (opSize : Nat → Nat) (s : State) (n : Int)
    (hcall : isCallLike s._prevOpCode = true) :
    (Step opSize s n StepType.StepOver)._step =
      { StepCount := -1,
        BreakAddress := ((s._prevProgramCounter + opSize s._prevOpCode % 256 : Nat) : Int) } := by
  simp [Step, hcall]

/-! ## StepOver -/

/-- C4: `Step(_, StepOver)` is issued when the previous opcode is call-like
(0x3F or 0x0F), fetched at `P = _prevProgramCounter` with size `S`. For every
following stream of accesses on which no forced break fires: if no access of
`pre` forwarded `pause = true` and the next access `a` does, then `a` is an
opcode fetch whose PC is `P + S`. -/
theorem stepOver_first_pause_at_return_pc (opSize : Nat → Nat) (s : State) (n : Int)
    (hcall : isCallLike s._prevOpCode = true) (pre : List Access) (a : Access)
    (hpre : pre.all Access.quiet = true) (ha : a.quiet = true)
    (hnone : ∀ b ∈ forwardedPause (runAccesses opSize (Step opSize s n StepType.StepOver) pre).2,
      b = false)
    (hpause : true ∈ forwardedPause
      (a.apply opSize (runAccesses opSize (Step opSize s n StepType.StepOver) pre).1).2) :
    a.fetchesAt (s._prevProgramCounter + opSize s._prevOpCode % 256) = true := by
  have hreq := stepOver_request opSize s n hcall
  have hkeep := run_waiting opSize pre (Step opSize s n StepType.StepOver) hpre
    (by rw [hreq]; show (-1 : Int) < 0; omega) hnone
  rw [hreq] at hkeep
  have hw := (waiting_step opSize _ a ha (by rw [hkeep]; show (-1 : Int) < 0; omega)).1
  rw [hw] at hpause
  have hh : hits (runAccesses opSize (Step opSize s n StepType.StepOver) pre).1 a = true := by
    have := List.eq_of_mem_replicate hpause
    exact this.symm
  cases a with
  | Write _ _ _ _ => simp [hits] at hh
  | Read addr value type w =>
    simp only [hits, hkeep, Bool.and_eq_true, decide_eq_true_eq] at hh
    simp only [Access.fetchesAt, Bool.and_eq_true, decide_eq_true_eq]
    refine ⟨hh.1, ?_⟩
    have := hh.2.1
    omega

/-- Witness for C4: `CALL` (0x3F, three bytes) is fetched at 0x100 and
`StepOver` is issued; the callee at 0x200 is a lone `RET` (0x6F), which forwards
`false`; the fetch at 0x103 forwards `true`. -/
theorem stepOver_first_pause_at_return_pc_witness :
    Access.fetchesAt
      ((runAccesses sampleOpSize (construct 0xFF 0) [sampleFetch 0x100 0x3F]).1._prevProgramCounter
        + sampleOpSize
            (runAccesses sampleOpSize (construct 0xFF 0) [sampleFetch 0x100 0x3F]).1._prevOpCode
          % 256)
      (sampleFetch 0x103 0x00) = true ∧
    forwardedPause (runAccesses sampleOpSize
      (Step sampleOpSize (runAccesses sampleOpSize (construct 0xFF 0) [sampleFetch 0x100 0x3F]).1
        1 StepType.StepOver)
      [sampleFetch 0x200 0x6F, sampleFetch 0x103 0x00]).2 = [false, true] :=
  ⟨stepOver_first_pause_at_return_pc sampleOpSize
      (runAccesses sampleOpSize (construct 0xFF 0) [sampleFetch 0x100 0x3F]).1 1 (by decide)
      [sampleFetch 0x200 0x6F] (sampleFetch 0x103 0x00) (by decide) (by decide) (by decide)
      (by decide),
   by decide⟩

/-- C5 fails as stated: `CALL` (0x3F, three bytes) is fetched at 0x100 and
`StepOver` installs break address 0x103; the callee at 0x200 jumps (0x5F) to
0x103, and that first fetch at 0x103 forwards `pause = false`. -/
theorem stepOver_address_alone_counterexample :
    (Step sampleOpSize (runAccesses sampleOpSize (construct 0xFF 0) [sampleFetch 0x100 0x3F]).1
        1 StepType.StepOver)._step.BreakAddress = 0x103 ∧
    forwardedPause (runAccesses sampleOpSize
      (Step sampleOpSize (runAccesses sampleOpSize (construct 0xFF 0) [sampleFetch 0x100 0x3F]).1
        1 StepType.StepOver)
      [sampleFetch 0x200 0x5F, sampleFetch 0x103 0x00]).2 = [false, false] := by
  decide

/-- C5 (amended): after `Step(_, StepOver)` on a call-like previous opcode at
`P` with size `S`, with no forced break firing, every access before the first
opcode fetch at PC `P + S` forwards `pause = false`, and that first fetch at
`P + S` forwards `pause = true` exactly when the opcode fetched just before it
is return-like (0x6F or 0x7F). -/
theorem stepOver_pause_iff_after_return (opSize : Nat → Nat) (s : State) (n : Int)
    (hcall : isCallLike s._prevOpCode = true) (pre : List Access) (addr value : Nat)
    (w : SpcWorld) (hpre : pre.all Access.quiet = true) (hq : forcedBreak value w = false)
    (hfirst : pre.all
      (fun a => !a.fetchesAt (s._prevProgramCounter + opSize s._prevOpCode % 256)) = true)
    (hpc : w.PC % 65536 = s._prevProgramCounter + opSize s._prevOpCode % 256) :
    forwardedPause (runAccesses opSize (Step opSize s n StepType.StepOver) pre).2
      = List.replicate (reported pre) false ∧
    forwardedPause (ProcessRead opSize
        (runAccesses opSize (Step opSize s n StepType.StepOver) pre).1 addr value
        MemoryOperationType.ExecOpCode w).2
      = [isReturnLike (runAccesses opSize (Step opSize s n StepType.StepOver) pre).1._prevOpCode] := by
  have hreq := stepOver_request opSize s n hcall
  have key : ∀ (l : List Access) (t : State), l.all Access.quiet = true →
      t._step = StepRequest.mk (-1)
        ((s._prevProgramCounter + opSize s._prevOpCode % 256 : Nat) : Int) →
      l.all (fun a => !a.fetchesAt (s._prevProgramCounter + opSize s._prevOpCode % 256)) = true →
      (runAccesses opSize t l).1._step = t._step ∧
      forwardedPause (runAccesses opSize t l).2 = List.replicate (reported l) false := by
    intro l
    induction l with
    | nil => intro t _ _ _; simp [runAccesses, reported, forwardedPause]
    | cons a rest ih =>
      intro t hql ht hfl
      simp only [List.all_cons, Bool.and_eq_true] at hql hfl
      obtain ⟨hflag, hstep⟩ := waiting_step opSize t a hql.1 (by rw [ht]; show (-1 : Int) < 0; omega)
      have hh : hits t a = false := by
        cases a with
        | Write _ _ _ _ => rfl
        | Read addr value type w =>
          have h1 := hfl.1
          simp only [Access.fetchesAt, Bool.not_eq_true', Bool.and_eq_false_iff,
            decide_eq_false_iff_not] at h1
          simp only [hits, ht, Bool.and_eq_false_iff, decide_eq_false_iff_not]
          rcases h1 with h1 | h1
          · left; exact h1
          · right; left; omega
      rw [hh] at hflag hstep
      simp only [Bool.false_eq_true, if_false] at hstep
      have hrest := ih (a.apply opSize t).1 hql.2 (by rw [hstep]; exact ht) hfl.2
      refine ⟨?_, ?_⟩
      · simp only [runAccesses]; rw [hrest.1, hstep]
      · simp only [runAccesses, forwardedPause_append]
        rw [hflag, hrest.2, reported_cons a rest, List.replicate_add]
  obtain ⟨hkeep, hflags⟩ := key pre (Step opSize s n StepType.StepOver) hpre hreq hfirst
  refine ⟨hflags, ?_⟩
  rw [hreq] at hkeep
  have hw := (waiting_step opSize (runAccesses opSize (Step opSize s n StepType.StepOver) pre).1
    (Access.Read addr value MemoryOperationType.ExecOpCode w)
    (by simpa [Access.quiet] using hq) (by rw [hkeep]; show (-1 : Int) < 0; omega)).1
  rw [Access.apply] at hw
  rw [hw]
  simp [reported, Access.isDummyRead, hits, hkeep, hpc]

/-- Witness for C5 (amended): the run of the counterexample, and the same run
with a `RET` (0x6F) in place of the jump. -/
theorem stepOver_pause_iff_after_return_witness :
    forwardedPause (ProcessRead sampleOpSize
        (runAccesses sampleOpSize
          (Step sampleOpSize
            (runAccesses sampleOpSize (construct 0xFF 0) [sampleFetch 0x100 0x3F]).1
            1 StepType.StepOver)
          [sampleFetch 0x200 0x6F]).1 0x103 0x00
        MemoryOperationType.ExecOpCode (sampleWorld 0x103 false false false)).2 = [true] :=
  ((stepOver_pause_iff_after_return sampleOpSize
      (runAccesses sampleOpSize (construct 0xFF 0) [sampleFetch 0x100 0x3F]).1 1 (by decide)
      [sampleFetch 0x200 0x6F] 0x103 0x00 (sampleWorld 0x103 false false false)
      (by decide) (by decide) (by decide) (by decide)).2).trans (by decide)

/-! ## Run and StepOut on an empty callstack -/

/-- C7: after `Run()`, on every stream of accesses of any kind and any PC on
which no forced break fires, every forwarded pause flag is `false` and the
request stays empty (absent count, absent break address). -/
theorem run_never_pauses (opSize : Nat → Nat) (s : State) (accs : List Access)
    (hq : accs.all Access.quiet = true) :
    forwardedPause (runAccesses opSize (Run s) accs).2 = List.replicate (reported accs) false ∧
    (runAccesses opSize (Run s) accs).1._step = { StepCount := -1, BreakAddress := -1 } := by
  have h := run_free opSize accs (Run s) hq (by simp [Run]) (by simp [Run])
  exact ⟨h.2, by rw [h.1]; rfl⟩

/-- Witness for C7: a fetch of `RET`, a read, a write and a fetch after `Run()`. -/
theorem run_never_pauses_witness :
    forwardedPause (runAccesses sampleOpSize (Run (construct 0x3F 0x100))
      [sampleFetch 0x200 0x6F,
       Access.Read 0x10 0x00 MemoryOperationType.Read (sampleWorld 0x201 false false false),
       Access.Write 0x10 0x00 MemoryOperationType.Write (sampleWorld 0x201 false false false),
       sampleFetch 0x103 0x00]).2 = [false, false, false, false] :=
  ((run_never_pauses sampleOpSize (construct 0x3F 0x100)
      [sampleFetch 0x200 0x6F,
       Access.Read 0x10 0x00 MemoryOperationType.Read (sampleWorld 0x201 false false false),
       Access.Write 0x10 0x00 MemoryOperationType.Write (sampleWorld 0x201 false false false),
       sampleFetch 0x103 0x00] (by decide)).1).trans (by decide)

/-- C6: when the callstack is empty, `Step(_, StepOut)` installs the very
request `Run()` installs, and on every following stream of accesses on which no
forced break fires every forwarded pause flag is `false`. -/
theorem stepOut_empty_callstack_never_pauses (opSize : Nat → Nat) (s : State) (n : Int)
    (accs : List Access) (hempty : s._callstackManager.frames = [])
    (hq : accs.all Access.quiet = true) :
    Step opSize s n StepType.StepOut = Run s ∧
    forwardedPause (runAccesses opSize (Step opSize s n StepType.StepOut) accs).2
      = List.replicate (reported accs) false := by
  have heq : Step opSize s n StepType.StepOut = Run s := by
    simp [Step, Run, CallstackManager.GetReturnAddress, hempty]
  refine ⟨heq, ?_⟩
  rw [heq]
  exact (run_free opSize accs (Run s) hq (by simp [Run]) (by simp [Run])).2

/-- Witness for C6: `StepOut` right after construction, then a `RET` fetch and
two more accesses. -/
theorem stepOut_empty_callstack_never_pauses_witness :
    forwardedPause (runAccesses sampleOpSize (Step sampleOpSize (construct 0xFF 0) 1 StepType.StepOut)
      [sampleFetch 0x200 0x6F,
       Access.Read 0x10 0x00 MemoryOperationType.Read (sampleWorld 0x201 false false false),
       sampleFetch 0x103 0x00]).2 = [false, false, false] :=
  ((stepOut_empty_callstack_never_pauses sampleOpSize (construct 0xFF 0) 1
      [sampleFetch 0x200 0x6F,
       Access.Read 0x10 0x00 MemoryOperationType.Read (sampleWorld 0x201 false false false),
       sampleFetch 0x103 0x00] (by decide) (by decide)).2).trans (by decide)

/-! ## Callstack maintenance -/

/-- The previous opcode after an opcode fetch is the fetched byte. -/
theorem fetch_prevOpCode (opSize : Nat → Nat) (s : State) (addr value : Nat) (w : SpcWorld) :
    (ProcessRead opSize s addr value MemoryOperationType.ExecOpCode w).1._prevOpCode
      = value % 256 := by
  simp [ProcessRead, execOpCode]

/-- The previous program counter after an opcode fetch is the PC of the fetch. -/
theorem fetch_prevProgramCounter (opSize : Nat → Nat) (s : State) (addr value : Nat)
    (w : SpcWorld) :
    (ProcessRead opSize s addr value MemoryOperationType.ExecOpCode w).1._prevProgramCounter
      = w.PC % 65536 := by
  simp [ProcessRead, execOpCode]

/-- The callstack after an opcode fetch, by the kind of the previous opcode. -/
theorem fetch_callstack (opSize : Nat → Nat) (s : State) (addr value : Nat) (w : SpcWorld) :
    (ProcessRead opSize s addr value MemoryOperationType.ExecOpCode w).1._callstackManager =
      if isCallLike s._prevOpCode = true then
        s._callstackManager.Push (w.GetAbsoluteAddress s._prevProgramCounter)
          s._prevProgramCounter (w.GetAbsoluteAddress addr) (w.PC % 65536)
          (w.GetAbsoluteAddress ((s._prevProgramCounter + opSize s._prevOpCode % 256) % 65536))
          ((s._prevProgramCounter + opSize s._prevOpCode % 256) % 65536)
      else if isReturnLike s._prevOpCode = true then
        s._callstackManager.Pop (w.GetAbsoluteAddress addr) (w.PC % 65536)
      else s._callstackManager := by
  simp [ProcessRead, execOpCode]

/-- C8: an opcode fetch of a call-like byte (0x3F or 0x0F) at PC `P` followed by
an opcode fetch at PC `C` makes the second fetch push exactly one frame, with
source PC `P`, target PC `C` and expected return `(P + opSize) mod 2^16`, on top
of the frames present before it; `GetReturnAddress()` then returns that
expected return. -/
theorem call_pushes_one_frame (opSize : Nat → Nat) (s : State) (a1 v1 a2 v2 : Nat)
    (w1 w2 : SpcWorld) (hcall : isCallLike (v1 % 256) = true) :
    (ProcessRead opSize (ProcessRead opSize s a1 v1 MemoryOperationType.ExecOpCode w1).1
        a2 v2 MemoryOperationType.ExecOpCode w2).1._callstackManager.frames =
      { Source := w1.PC % 65536,
        AbsSource := w2.GetAbsoluteAddress (w1.PC % 65536),
        Target := w2.PC % 65536,
        AbsTarget := w2.GetAbsoluteAddress a2,
        Return := (w1.PC % 65536 + opSize (v1 % 256) % 256) % 65536,
        AbsReturn := w2.GetAbsoluteAddress ((w1.PC % 65536 + opSize (v1 % 256) % 256) % 65536) }
      :: (ProcessRead opSize s a1 v1 MemoryOperationType.ExecOpCode w1).1._callstackManager.frames ∧
    (ProcessRead opSize (ProcessRead opSize s a1 v1 MemoryOperationType.ExecOpCode w1).1
        a2 v2 MemoryOperationType.ExecOpCode w2).1._callstackManager.GetReturnAddress =
      (((w1.PC % 65536 + opSize (v1 % 256) % 256) % 65536 : Nat) : Int) := by
  rw [fetch_callstack, fetch_prevOpCode, fetch_prevProgramCounter]
  simp [hcall, CallstackManager.Push, CallstackManager.GetReturnAddress]

/-- Witness for C8: `CALL` (0x3F, three bytes) fetched at 0x100, next fetch at
0x200: one frame 0x100 → 0x200 with return 0x103, and `GetReturnAddress()` is
0x103. -/
theorem call_pushes_one_frame_witness :
    ((ProcessRead sampleOpSize
        (ProcessRead sampleOpSize (construct 0xFF 0) 0x100 0x3F MemoryOperationType.ExecOpCode
          (sampleWorld 0x100 false false false)).1
        0x200 0x6F MemoryOperationType.ExecOpCode
        (sampleWorld 0x200 false false false)).1._callstackManager.frames.map
      (fun f => (f.Source, f.Target, f.Return))) = [(0x100, 0x200, 0x103)] ∧
    (ProcessRead sampleOpSize
        (ProcessRead sampleOpSize (construct 0xFF 0) 0x100 0x3F MemoryOperationType.ExecOpCode
          (sampleWorld 0x100 false false false)).1
        0x200 0x6F MemoryOperationType.ExecOpCode
        (sampleWorld 0x200 false false false)).1._callstackManager.GetReturnAddress = 0x103 :=
  have h := call_pushes_one_frame sampleOpSize (construct 0xFF 0) 0x100 0x3F 0x200 0x6F
    (sampleWorld 0x100 false false false) (sampleWorld 0x200 false false false) (by decide)
  ⟨by rw [h.1]; decide, h.2.trans (by decide)⟩

/-- Accesses that are not opcode fetches leave the debugger as it is. -/
theorem run_nonfetch (opSize : Nat → Nat) (l : List Access) :
    ∀ s : State, l.all (fun a => !a.isFetch) = true → (runAccesses opSize s l).1 = s := by
  induction l with
  | nil => intro s _; rfl
  | cons a rest ih =>
    intro s h
    simp only [List.all_cons, Bool.and_eq_true, Bool.not_eq_true'] at h
    simp only [runAccesses]
    rw [apply_nonfetch opSize s a h.1]
    exact ih s (by simpa using h.2)

/-- Plain accesses after a plain opcode neither push nor pop. -/
theorem run_plain_after_plain (opSize : Nat → Nat) (l : List Access) :
    ∀ s : State, l.all Access.plain = true → isCallLike s._prevOpCode = false →
      isReturnLike s._prevOpCode = false →
      (runAccesses opSize s l).1._callstackManager = s._callstackManager ∧
      isCallLike (runAccesses opSize s l).1._prevOpCode = false ∧
      isReturnLike (runAccesses opSize s l).1._prevOpCode = false := by
  induction l with
  | nil => intro s _ hc hr; exact ⟨rfl, hc, hr⟩
  | cons a rest ih =>
    intro s h hc hr
    simp only [List.all_cons, Bool.and_eq_true] at h
    simp only [runAccesses]
    cases hf : a.isFetch
    · rw [apply_nonfetch opSize s a hf]; exact ih s h.2 hc hr
    · cases a with
      | Write _ _ _ _ => simp [Access.isFetch] at hf
      | Read addr value type w =>
        simp only [Access.isFetch, decide_eq_true_eq] at hf
        subst hf
        have hp := h.1
        simp only [Access.plain, decide_True, Bool.true_and, Bool.not_eq_true',
          Bool.or_eq_false_iff] at hp
        have hcs := fetch_callstack opSize s addr value w
        simp only [hc, hr, Bool.false_eq_true, if_false] at hcs
        have := ih (ProcessRead opSize s addr value MemoryOperationType.ExecOpCode w).1 h.2
          (by rw [fetch_prevOpCode]; exact hp.1) (by rw [fetch_prevOpCode]; exact hp.2)
        simp only [Access.apply]
        rw [← hcs]
        exact this

/-- After a call-like opcode, plain accesses followed by the fetch of `rv`
leave the callstack one frame deeper, with `rv` as the previous opcode. -/
theorem run_plain_after_call (opSize : Nat → Nat) (ra rv : Nat) (wr : SpcWorld)
    (l : List Access) :
    ∀ s : State, l.all Access.plain = true → isCallLike s._prevOpCode = true →
      (runAccesses opSize s
          (l ++ [Access.Read ra rv MemoryOperationType.ExecOpCode wr])).1._callstackManager.depth
        = s._callstackManager.depth + 1 ∧
      (runAccesses opSize s
          (l ++ [Access.Read ra rv MemoryOperationType.ExecOpCode wr])).1._prevOpCode
        = rv % 256 := by
  induction l with
  | nil =>
    intro s _ hc
    simp only [List.nil_append, runAccesses, Access.apply]
    rw [fetch_callstack, fetch_prevOpCode]
    simp [hc, CallstackManager.Push, CallstackManager.depth]
  | cons a rest ih =>
    intro s h hc
    simp only [List.all_cons, Bool.and_eq_true] at h
    simp only [List.cons_append, runAccesses]
    cases hf : a.isFetch
    · rw [apply_nonfetch opSize s a hf]; exact ih s h.2 hc
    · cases a with
      | Write _ _ _ _ => simp [Access.isFetch] at hf
      | Read addr value type w =>
        simp only [Access.isFetch, decide_eq_true_eq] at hf
        subst hf
        have hp := h.1
        simp only [Access.plain, decide_True, Bool.true_and, Bool.not_eq_true',
          Bool.or_eq_false_iff] at hp
        have hcs := fetch_callstack opSize s addr value w
        simp only [hc, if_true] at hcs
        simp only [Access.apply, List.append_eq]
        rw [runAccesses_append]
        obtain ⟨h1, h2, h3⟩ := run_plain_after_plain opSize rest
          (ProcessRead opSize s addr value MemoryOperationType.ExecOpCode w).1 h.2
          (by rw [fetch_prevOpCode]; exact hp.1) (by rw [fetch_prevOpCode]; exact hp.2)
        simp only [runAccesses, Access.apply]
        rw [fetch_callstack, fetch_prevOpCode, h1, hcs]
        simp [h2, h3, CallstackManager.Push, CallstackManager.depth]

/-- C9: the debugger has just fetched a call-like opcode (state `s`). Then come
accesses `mids` whose opcode fetches are neither call-like nor return-like, the
fetch of a return-like opcode (0x6F or 0x7F), accesses `gap` that are not
opcode fetches, and one more opcode fetch. After that last fetch the callstack
depth equals the depth in `s`: one push on the fetch that follows the call, one
pop on the fetch that follows the return. -/
theorem call_then_return_restores_depth (opSize : Nat → Nat) (s : State)
    (mids gap : List Access) (ra rv xa xv : Nat) (wr wx : SpcWorld)
    (hcall : isCallLike s._prevOpCode = true) (hmids : mids.all Access.plain = true)
    (hret : isReturnLike (rv % 256) = true)
    (hgap : gap.all (fun a => !a.isFetch) = true) :
    (runAccesses opSize s
        ((mids ++ [Access.Read ra rv MemoryOperationType.ExecOpCode wr]) ++
          (gap ++ [Access.Read xa xv MemoryOperationType.ExecOpCode wx]))).1._callstackManager.depth
      = s._callstackManager.depth := by
  obtain ⟨hd, hp⟩ := run_plain_after_call opSize ra rv wr mids s hmids hcall
  rw [runAccesses_append]
  simp only
  rw [runAccesses_append]
  simp only
  rw [run_nonfetch opSize gap _ hgap]
  simp only [runAccesses, Access.apply]
  rw [fetch_callstack, hp]
  have hnc : isCallLike (rv % 256) = false := by
    simp only [isReturnLike, Bool.or_eq_true, beq_iff_eq] at hret
    rcases hret with h | h <;> simp [isCallLike, h]
  simp only [hnc, hret, Bool.false_eq_true, if_false, if_true]
  simp only [CallstackManager.Pop, CallstackManager.depth, List.length_tail]
  simp only [CallstackManager.depth] at hd
  rw [hd]
  omega

/-- Witness for C9: `CALL` has been fetched at 0x100 on an empty callstack; the
callee fetches a `MOV`, reads memory, fetches `RET`, and the caller fetches its
next opcode: the depth is 0 again, having been 1 inside the callee. -/
theorem call_then_return_restores_depth_witness :
    (runAccesses sampleOpSize (construct 0x3F 0x100)
        (([sampleFetch 0x200 0xE8,
           Access.Read 0x10 0x00 MemoryOperationType.Read (sampleWorld 0x202 false false false)]
          ++ [Access.Read 0x202 0x6F MemoryOperationType.ExecOpCode
                (sampleWorld 0x202 false false false)]) ++
         ([Access.Read 0x1EF 0x03 MemoryOperationType.Read (sampleWorld 0x203 false false false)]
          ++ [Access.Read 0x103 0x00 MemoryOperationType.ExecOpCode
                (sampleWorld 0x103 false false false)]))).1._callstackManager.depth = 0 ∧
    (runAccesses sampleOpSize (construct 0x3F 0x100)
        [sampleFetch 0x200 0xE8]).1._callstackManager.depth = 1 :=
  ⟨(call_then_return_restores_depth sampleOpSize (construct 0x3F 0x100)
      [sampleFetch 0x200 0xE8,
       Access.Read 0x10 0x00 MemoryOperationType.Read (sampleWorld 0x202 false false false)]
      [Access.Read 0x1EF 0x03 MemoryOperationType.Read (sampleWorld 0x203 false false false)]
      0x202 0x6F 0x103 0x00 (sampleWorld 0x202 false false false)
      (sampleWorld 0x103 false false false) (by decide) (by decide) (by decide)
      (by decide)).trans (by decide),
   by decide⟩

/-! ## Dummy reads -/

/-- C10: `ProcessRead` with kind `DummyRead` returns the debugger unchanged
(previous opcode, previous PC, step request, callstack) and makes no call on
any collaborator (no counter update, no trace or disassembly call, no
`ProcessBreakConditions`); hence a stream of accesses and the stream left after
removing its dummy reads end in the same debugger state and make the same
collaborator calls, pause flags included. -/
theorem dummy_read_is_invisible (opSize : Nat → Nat) (s : State) (addr value : Nat)
    (w : SpcWorld) (l : List Access) :
    ProcessRead opSize s addr value MemoryOperationType.DummyRead w = (s, []) ∧
    runAccesses opSize s (l.filter (fun a => !a.isDummyRead)) = runAccesses opSize s l := by
  refine ⟨by simp [ProcessRead], ?_⟩
  induction l generalizing s with
  | nil => rfl
  | cons a rest ih =>
    cases hd : a.isDummyRead
    · simp only [List.filter_cons, hd, Bool.not_false, if_true, runAccesses]
      rw [ih]
    · have happ : a.apply opSize s = (s, []) := by
        cases a with
        | Write _ _ _ _ => simp [Access.isDummyRead] at hd
        | Read addr value type w =>
          simp only [Access.isDummyRead, decide_eq_true_eq] at hd
          subst hd
          simp [Access.apply, ProcessRead]
      simp only [List.filter_cons, hd, Bool.not_true, Bool.false_eq_true, if_false, runAccesses,
        happ, List.nil_append]
      rw [ih]

/-! ## Operand fetches -/

/-- C11: `ProcessRead` with kind `ExecOperand` returns the debugger unchanged
(previous opcode, previous PC, step request, callstack) and makes exactly two
collaborator calls: one `ProcessMemoryExec` on the resolved address and the
forward to `ProcessBreakConditions` with `_step->StepCount == 0` and an
unspecified break source. -/
theorem operand_fetch_effects (opSize : Nat → Nat) (s : State) (addr value : Nat)
    (w : SpcWorld) :
    ProcessRead opSize s addr value MemoryOperationType.ExecOperand w =
      (s, [DebugEvent.ProcessMemoryExec (w.GetAbsoluteAddress addr) w.MasterClock,
           DebugEvent.ProcessBreakConditions (decide (s._step.StepCount = 0))
             { Address := addr, Value := value % 256, OpType := MemoryOperationType.ExecOperand }
             (w.GetAbsoluteAddress addr) BreakSource.Unspecified]) := by
  simp [ProcessRead]

/-! ## Reset -/

/-- C12: `Reset()` leaves an empty callstack and previous opcode 0xFF, and
keeps the step request and the previous PC as they were; 0xFF is neither
call-like nor return-like, and the first opcode fetch after `Reset()` leaves
the callstack as `Reset()` left it. -/
theorem reset_effects (opSize : Nat → Nat) (s : State) (addr value : Nat) (w : SpcWorld) :
    (Reset s)._callstackManager.frames = [] ∧
    (Reset s)._prevOpCode = 0xFF ∧
    (Reset s)._step = s._step ∧
    (Reset s)._prevProgramCounter = s._prevProgramCounter ∧
    isCallLike (Reset s)._prevOpCode = false ∧
    isReturnLike (Reset s)._prevOpCode = false ∧
    (ProcessRead opSize (Reset s) addr value MemoryOperationType.ExecOpCode w).1._callstackManager
      = (Reset s)._callstackManager := by
  have h1 : isCallLike (Reset s)._prevOpCode = false := rfl
  have h2 : isReturnLike (Reset s)._prevOpCode = false := rfl
  refine ⟨rfl, rfl, rfl, rfl, h1, h2, ?_⟩
  rw [fetch_callstack]
  simp [h1, h2]

/-! ## Step kinds without a meaning for the SPC -/

/-- C13 fails as stated: with `Step(3, Step)` active, `Step(1, PpuStep)` and
`Step(1, SpecificScanline)` both return normally, and the debugger is left as
after `Run()`. -/
theorem step_other_kind_returns_counterexample :
    StepCall sampleOpSize (Step sampleOpSize (construct 0xFF 0) 3 StepType.Step) 1
        StepType.PpuStep = Except.ok (Run (construct 0xFF 0)) ∧
    StepCall sampleOpSize (Step sampleOpSize (construct 0xFF 0) 3 StepType.Step) 1
        StepType.SpecificScanline = Except.ok (Run (construct 0xFF 0)) :=
  ⟨rfl, rfl⟩

/-- C13 (amended): `Step` with kind `PpuStep` or `SpecificScanline` raises no
error; it returns normally and installs the empty request (no count, no break
address) exactly as `Run()` does, discarding the request that was active. -/
theorem step_other_kind_is_run (opSize : Nat → Nat) (s : State) (n : Int) :
    StepCall opSize s n StepType.PpuStep = Except.ok (Run s) ∧
    StepCall opSize s n StepType.SpecificScanline = Except.ok (Run s) ∧
    (Run s)._step = { StepCount := -1, BreakAddress := -1 } := by
  refine ⟨rfl, rfl, rfl⟩

/-! ## Unsupported capabilities -/

/-- C14: `GetAssembler`, `GetEventManager` and `GetCodeDataLogger` each end in
an error whose message ends in "not supported for SPC", never in a returned
value, and leave the debugger as it was. -/
theorem unsupported_getters_throw (α : Type) (s : State) :
    (GetAssembler α s = (Except.error "Assembler not supported for SPC", s) ∧
     GetEventManager α s = (Except.error "Event manager not supported for SPC", s) ∧
     GetCodeDataLogger α s = (Except.error "CDL not supported for SPC", s)) ∧
    (∀ v : α, (GetAssembler α s).1 ≠ Except.ok v ∧ (GetEventManager α s).1 ≠ Except.ok v ∧
      (GetCodeDataLogger α s).1 ≠ Except.ok v) ∧
    (∀ m : String, ((GetAssembler α s).1 = Except.error m ∨ (GetEventManager α s).1 = Except.error m
        ∨ (GetCodeDataLogger α s).1 = Except.error m) →
      ("not supported for SPC".toList).isSuffixOf m.toList = true) ∧
    ((GetAssembler α s).2 = s ∧ (GetEventManager α s).2 = s ∧ (GetCodeDataLogger α s).2 = s) := by
  refine ⟨⟨rfl, rfl, rfl⟩, ?_, ?_, ⟨rfl, rfl, rfl⟩⟩
  · intro v
    refine ⟨?_, ?_, ?_⟩ <;> intro h <;> simp [GetAssembler, GetEventManager, GetCodeDataLogger] at h
  · intro m h
    simp only [GetAssembler, GetEventManager, GetCodeDataLogger, Except.error.injEq] at h
    rcases h with h | h | h <;> subst h <;> decide

/-- Witness for C14: the message of `GetCodeDataLogger` ends as stated. -/
theorem unsupported_getters_throw_witness :
    ("not supported for SPC".toList).isSuffixOf "CDL not supported for SPC".toList = true :=
  (unsupported_getters_throw Nat (construct 0xFF 0)).2.2.1 "CDL not supported for SPC"
    (Or.inr (Or.inr rfl))

/-! ## StepOver after an ordinary opcode -/

/-- C15: when the previous opcode is not call-like (neither 0x3F nor 0x0F),
`Step(n, StepOver)` leaves the debugger exactly as `Step(1, Step)` does, for
every `n`: the request is count 1 with no break address, whatever request was
active before. -/
theorem stepOver_plain_is_step_one (opSize : Nat → Nat) (s : State) (n : Int)
    (h : isCallLike s._prevOpCode = false) :
    Step opSize s n StepType.StepOver = Step opSize s 1 StepType.Step ∧
    (Step opSize s n StepType.StepOver)._step = { StepCount := 1, BreakAddress := -1 } := by
  simp [Step, h]

/-- Witness for C15: `StepOver` with `n = 7` after a `MOV` (0xE8), with a
`StepOut`-style request active before. -/
theorem stepOver_plain_is_step_one_witness :
    (Step sampleOpSize
      { _prevOpCode := 0xE8, _prevProgramCounter := 0x200,
        _step := { StepCount := -1, BreakAddress := 0x103 }, _callstackManager := {} }
      7 StepType.StepOver)._step = { StepCount := 1, BreakAddress := -1 } :=
  (stepOver_plain_is_step_one sampleOpSize
    { _prevOpCode := 0xE8, _prevProgramCounter := 0x200,
      _step := { StepCount := -1, BreakAddress := 0x103 }, _callstackManager := {} }
    7 (by decide)).2

/-! ## The remaining count never goes negative -/

/-- C16: for every access handled by `ProcessRead` or `ProcessWrite`, forced
breaks included, a remaining count that is `≥ 0` before the access is `≥ 0`
after it; and when it is 0 before an opcode fetch, that fetch forwards
`pause = true` and leaves it 0. -/
theorem count_nonneg_and_zero_absorbing (opSize : Nat → Nat) (s : State) (a : Access)
    (addr value : Nat) (w : SpcWorld) :
    (0 ≤ s._step.StepCount → 0 ≤ (a.apply opSize s).1._step.StepCount) ∧
    (s._step.StepCount = 0 →
      forwardedPause (ProcessRead opSize s addr value MemoryOperationType.ExecOpCode w).2 = [true] ∧
      (ProcessRead opSize s addr value MemoryOperationType.ExecOpCode w).1._step.StepCount = 0) := by
  constructor
  · intro h
    cases hf : a.isFetch
    · rw [apply_nonfetch opSize s a hf]; exact h
    · cases a with
      | Write _ _ _ _ => simp [Access.isFetch] at hf
      | Read addr value type w =>
        simp only [Access.isFetch, decide_eq_true_eq] at hf
        subst hf
        rw [Access.apply, fetch_state]
        simp only [execOpCode]
        split_ifs <;> simp <;> omega
  · intro h
    have hz : (execOpCode opSize s value w (w.GetAbsoluteAddress addr)).1._step.StepCount = 0 := by
      simp only [execOpCode, h]
      split_ifs <;> first | rfl | (exfalso; omega)
    rw [fetch_pause, fetch_state, hz]
    simp

/-- Witness for C16: count 2 goes to 1 on a fetch; count 0 (left by
`Step(1, Step)` and one fetch) stays 0 on the next fetch, which pauses. -/
theorem count_nonneg_and_zero_absorbing_witness :
    0 ≤ ((sampleFetch 0x200 0xE8).apply sampleOpSize
          (Step sampleOpSize (construct 0xFF 0) 2 StepType.Step)).1._step.StepCount ∧
    (forwardedPause (ProcessRead sampleOpSize
        (runCalls sampleOpSize (construct 0xFF 0)
          [Call.step 1 StepType.Step, Call.access (sampleFetch 0x200 0xE8)])
        0x202 0x00 MemoryOperationType.ExecOpCode (sampleWorld 0x202 false false false)).2 = [true] ∧
     (ProcessRead sampleOpSize
        (runCalls sampleOpSize (construct 0xFF 0)
          [Call.step 1 StepType.Step, Call.access (sampleFetch 0x200 0xE8)])
        0x202 0x00 MemoryOperationType.ExecOpCode
        (sampleWorld 0x202 false false false)).1._step.StepCount = 0) :=
  ⟨(count_nonneg_and_zero_absorbing sampleOpSize
      (Step sampleOpSize (construct 0xFF 0) 2 StepType.Step) (sampleFetch 0x200 0xE8)
      0 0 (sampleWorld 0 false false false)).1 (by decide),
   (count_nonneg_and_zero_absorbing sampleOpSize
      (runCalls sampleOpSize (construct 0xFF 0)
        [Call.step 1 StepType.Step, Call.access (sampleFetch 0x200 0xE8)])
      (sampleFetch 0x200 0xE8) 0x202 0x00 (sampleWorld 0x202 false false false)).2 (by decide)⟩

end SpcDebugger

/-! # FDS audio: facts -/

/-! ## Bit operations as arithmetic -/

theorem and_0xFFF (x : Nat) : x &&& 0xFFF = x % 4096 :=
  Nat.and_pow_two_sub_one_eq_mod x 12

theorem and_0x1F (x : Nat) : x &&& 0x1F = x % 32 :=
  Nat.and_pow_two_sub_one_eq_mod x 5

theorem and_0x3F (x : Nat) : x &&& 0x3F = x % 64 :=
  Nat.and_pow_two_sub_one_eq_mod x 6

theorem and_0x07 (x : Nat) : x &&& 0x07 = x % 8 :=
  Nat.and_pow_two_sub_one_eq_mod x 3

theorem and_0x7F (x : Nat) : x &&& 0x7F = x % 128 :=
  Nat.and_pow_two_sub_one_eq_mod x 7

theorem and_0xFFFFF (x : Nat) : x &&& 0xFFFFF = x % 1048576 :=
  Nat.and_pow_two_sub_one_eq_mod x 20

theorem shiftRight_13 (x : Nat) : x >>> 13 = x / 8192 := by
  rw [Nat.shiftRight_eq_div_pow]

theorem shiftRight_18 (x : Nat) : x >>> 18 = x / 262144 := by
  rw [Nat.shiftRight_eq_div_pow]

/-- Clearing bits 0-12 with the mask `0x3E000` keeps bits 13-17. -/
theorem and_0x3E000_position (x : Nat) :
    ((x &&& 0x3E000) >>> 13) &&& 0x1F = (x >>> 13) &&& 0x1F := by
  apply Nat.eq_of_testBit_eq
  intro i
  simp only [Nat.testBit_and, Nat.testBit_shiftRight]
  by_cases hi : i < 5
  · have h1 : Nat.testBit 0x3E000 (13 + i) = true := by
      interval_cases i <;> decide
    rw [h1, Bool.and_true]
  · have h2 : Nat.testBit 0x1F i = false := by
      apply Nat.testBit_lt_two_pow
      calc (0x1F : Nat) < 2 ^ 5 := by decide
        _ ≤ 2 ^ i := Nat.pow_le_pow_right (by decide) (by omega)
    rw [h2, Bool.and_false, Bool.and_false]

theorem and_0x3E000_lt (x : Nat) : x &&& 0x3E000 < 0x40000 :=
  Nat.lt_of_le_of_lt Nat.and_le_right (by decide)

/-! ## The mod accumulator -/

namespace ModChannel

theorem IncrementAccumulator_fields {β : Type} (m : ModChannel β) (value : Nat) :
    (IncrementAccumulator m value).base = m.base ∧
    (IncrementAccumulator m value)._counter = m._counter ∧
    (IncrementAccumulator m value)._modCounterDisabled = m._modCounterDisabled ∧
    (IncrementAccumulator m value)._modCounterDisabledLatch = m._modCounterDisabledLatch ∧
    (IncrementAccumulator m value)._forceCarryOut = m._forceCarryOut ∧
    (IncrementAccumulator m value)._modTable = m._modTable ∧
    (IncrementAccumulator m value)._modTablePosition = m._modTablePosition := by
  unfold IncrementAccumulator
  split <;> simp

/-- With a non-zero addend the accumulator wraps at 18 bits and the carry flag
is the carry out of bit 11 of this very addition. -/
theorem IncrementAccumulator_nonzero {β : Type} (m : ModChannel β) (value : Nat)
    (hv : value ≠ 0) (hle : value ≤ 0x2000) (hacc : m._modAccumulator < 0x40000) :
    (IncrementAccumulator m value)._modAccumulator = (m._modAccumulator + value) % 0x40000 ∧
    (IncrementAccumulator m value)._bit11CarryOut
      = decide ((m._modAccumulator + value) % 4096 < m._modAccumulator % 4096) := by
  unfold IncrementAccumulator
  simp only [hv, if_false, and_0xFFF]
  have hs : (m._modAccumulator + value) % 4294967296 = m._modAccumulator + value := by omega
  rw [hs]
  refine ⟨?_, rfl⟩
  split <;> omega

theorem IncrementAccumulator_zero {β : Type} (m : ModChannel β) :
    IncrementAccumulator m 0 = m := by
  simp [IncrementAccumulator]

end ModChannel

/-! ## The invariant of the mod unit -/

namespace ModChannel

theorem getD_set_lt (l : List Nat) (p v : Nat) (hv : v < 8) (h : ∀ i, l.getD i 0 < 8) :
    ∀ i, (l.set p v).getD i 0 < 8 := by
  intro i
  rw [List.getD_eq_getElem?_getD, List.getElem?_set]
  split
  · split
    · simpa using hv
    · simp
  · rw [← List.getD_eq_getElem?_getD]; exact h i

theorem ModInv_UpdateModTablePosition {β : Type} (m : ModChannel β)
    (hacc : m._modAccumulator < 0x40000) (hlen : m._modTable.length = 32)
    (htab : ∀ i, m._modTable.getD i 0 < 8) : ModInv (UpdateModTablePosition m) :=
  ⟨hacc, rfl, hlen, htab⟩

theorem ModInv_WriteReg {β : Type} (ops : BaseFdsChannel β) (m : ModChannel β)
    (addr value : Nat) (hi : ModInv m) : ModInv (WriteReg ops m addr value) := by
  obtain ⟨hacc, hpos, hlen, htab⟩ := hi
  unfold WriteReg
  dsimp only
  split_ifs
  · exact ⟨hacc, hpos, hlen, htab⟩
  · exact ⟨hacc, hpos, hlen, htab⟩
  · refine ⟨and_0x3E000_lt _, ?_, hlen, htab⟩
    show m._modTablePosition = ((m._modAccumulator &&& 0x3E000) >>> 13) &&& 0x1F
    rw [and_0x3E000_position]; exact hpos
  · exact ⟨hacc, hpos, hlen, htab⟩
  · exact ⟨hacc, hpos, hlen, htab⟩

theorem ModInv_WriteModTable {β : Type} (m : ModChannel β) (value : Nat) (hi : ModInv m) :
    ModInv (WriteModTable m value) := by
  obtain ⟨hacc, hpos, hlen, htab⟩ := hi
  unfold WriteModTable
  split
  · have hv : value &&& 0x07 < 8 := by rw [and_0x07]; omega
    have hf := IncrementAccumulator_fields
      { m with _modTable := m._modTable.set m._modTablePosition (value &&& 0x07) } 0x2000
    have hn := IncrementAccumulator_nonzero
      { m with _modTable := m._modTable.set m._modTablePosition (value &&& 0x07) } 0x2000
      (by decide) (by decide) hacc
    apply ModInv_UpdateModTablePosition
    · rw [hn.1]; omega
    · rw [hf.2.2.2.2.2.1]; simpa using hlen
    · rw [hf.2.2.2.2.2.1]; exact getD_set_lt _ _ _ hv htab
  · exact ⟨hacc, hpos, hlen, htab⟩

theorem ModInv_UpdateOutput {β : Type} (ops : BaseFdsChannel β) (m : ModChannel β) (p : Nat)
    (hi : ModInv m) : ModInv (UpdateOutput ops m p) := hi

/-- The carry block keeps the invariant when the position is already right
in the case the block is skipped. -/
theorem ModInv_updateOnCarry {β : Type} (m2 : ModChannel β)
    (hacc : m2._modAccumulator < 0x40000) (hlen : m2._modTable.length = 32)
    (htab : ∀ i, m2._modTable.getD i 0 < 8)
    (hpos : (m2._bit11CarryOut || m2._forceCarryOut) = false →
      m2._modTablePosition = (m2._modAccumulator >>> 13) &&& 0x1F) :
    ModInv (updateOnCarry m2) := by
  unfold updateOnCarry
  dsimp only
  split
  · split
    · exact ModInv_UpdateModTablePosition _ hacc hlen htab
    · exact ModInv_UpdateModTablePosition _ hacc hlen htab
  · rename_i hflag
    exact ⟨hacc, hpos (by simpa using hflag), hlen, htab⟩

theorem ModInv_TickModulator {β : Type} (ops : BaseFdsChannel β) (m : ModChannel β)
    (halt : Bool) (hf : ops.frequency m.base ≤ 0xFFF) (hi : ModInv m) :
    ModInv (TickModulator ops m halt).1 := by
  obtain ⟨hacc, hpos, hlen, htab⟩ := hi
  have hfreq : _frequency ops m ≤ 0xFFF := by
    unfold _frequency; omega
  unfold TickModulator
  dsimp only
  split
  · cases halt
    · simp only [Bool.not_false, if_true]
      show ModInv (updateOnCarry _)
      generalize hv : (if m._forceCarryOut = true then 0x1000 else _frequency ops m) = v
      have hle : v ≤ 0x2000 := by
        rw [← hv]; split <;> omega
      have hfl := IncrementAccumulator_fields m v
      apply ModInv_updateOnCarry
      · by_cases h0 : v = 0
        · rw [h0, IncrementAccumulator_zero]; exact hacc
        · rw [(IncrementAccumulator_nonzero m v h0 hle hacc).1]; omega
      · rw [hfl.2.2.2.2.2.1]; exact hlen
      · rw [hfl.2.2.2.2.2.1]; exact htab
      · intro hflag
        simp only [Bool.or_eq_false_iff] at hflag
        rw [hfl.2.2.2.2.1] at hflag
        rw [hfl.2.2.2.2.2.2, hpos]
        by_cases h0 : v = 0
        · rw [h0, IncrementAccumulator_zero]
        · have hn := IncrementAccumulator_nonzero m v h0 hle hacc
          have hb := hflag.1
          rw [hn.2] at hb
          simp only [hflag.2, Bool.false_eq_true, if_false] at hv
          simp only [decide_eq_false_iff_not, not_lt] at hb
          rw [hn.1]
          simp only [shiftRight_13, and_0x1F]
          omega
    · exact ⟨hacc, hpos, hlen, htab⟩
  · exact ⟨hacc, hpos, hlen, htab⟩

theorem ModInv_runMod {β : Type} (ops : BaseFdsChannel β) (hf : ∀ b, ops.frequency b ≤ 0xFFF)
    (calls : List ModCall) : ∀ m : ModChannel β, ModInv m → ModInv (runMod ops m calls) := by
  induction calls with
  | nil => intro m h; exact h
  | cons c rest ih =>
    intro m h
    apply ih
    cases c with
    | WriteReg addr value => exact ModInv_WriteReg ops m _ _ h
    | WriteModTable value => exact ModInv_WriteModTable m _ h
    | TickModulator halt => exact ModInv_TickModulator ops m halt (hf _) h
    | UpdateOutput p => exact ModInv_UpdateOutput ops m (p % 65536) h

theorem getD_replicate_zero (n i : Nat) : (List.replicate n (0 : Nat)).getD i 0 = 0 := by
  induction n generalizing i with
  | zero => simp
  | succ n ih =>
    cases i with
    | zero => simp [List.replicate]
    | succ i => simp [List.replicate, ih i]

theorem ModInv_init {β : Type} (b : β) : ModInv (init b) := by
  refine ⟨?_, ?_, rfl, ?_⟩
  · show (0 : Nat) < 0x40000
    omega
  · show (0 : Nat) = ((0 : Nat) >>> 13) &&& 0x1F
    decide
  · intro i
    show (List.replicate 32 0).getD i 0 < 8
    rw [getD_replicate_zero]
    omega

end ModChannel

/-! ## The mod counter -/

namespace ModChannel

/-- `UpdateCounter` always leaves a 7-bit signed value congruent to its
argument modulo 128. -/
theorem UpdateCounter_range {β : Type} (m : ModChannel β) (v : Int) :
    -64 ≤ (UpdateCounter m v)._counter ∧ (UpdateCounter m v)._counter ≤ 63 ∧
    ((UpdateCounter m v)._counter - v) % 128 = 0 := by
  simp only [UpdateCounter, toInt8]
  split_ifs <;> omega

theorem UpdateCounter_then_position_range {β : Type} (x : ModChannel β) (v : Int) :
    -64 ≤ (UpdateModTablePosition (UpdateCounter x v))._counter ∧
    (UpdateModTablePosition (UpdateCounter x v))._counter ≤ 63 :=
  ⟨(UpdateCounter_range x v).1, (UpdateCounter_range x v).2.1⟩

theorem updateOnCarry_counter {β : Type} (m2 : ModChannel β)
    (h : -64 ≤ m2._counter ∧ m2._counter ≤ 63) :
    -64 ≤ (updateOnCarry m2)._counter ∧ (updateOnCarry m2)._counter ≤ 63 := by
  unfold updateOnCarry
  dsimp only
  split
  · split
    · exact UpdateCounter_then_position_range _ _
    · exact h
  · exact h

theorem updateOnCarry_modTable {β : Type} (m2 : ModChannel β) :
    (updateOnCarry m2)._modTable = m2._modTable := by
  unfold updateOnCarry
  dsimp only
  split
  · split <;> rfl
  · rfl

theorem TickModulator_modTable {β : Type} (ops : BaseFdsChannel β) (m : ModChannel β)
    (halt : Bool) : (TickModulator ops m halt).1._modTable = m._modTable := by
  unfold TickModulator
  dsimp only
  split
  · cases halt
    · simp only [Bool.not_false, if_true]
      show (updateOnCarry _)._modTable = _
      rw [updateOnCarry_modTable, (IncrementAccumulator_fields m _).2.2.2.2.2.1]
    · rfl
  · rfl

theorem TickModulator_counter {β : Type} (ops : BaseFdsChannel β) (m : ModChannel β)
    (halt : Bool) (h : -64 ≤ m._counter ∧ m._counter ≤ 63) :
    -64 ≤ (TickModulator ops m halt).1._counter ∧ (TickModulator ops m halt).1._counter ≤ 63 := by
  unfold TickModulator
  dsimp only
  split
  · cases halt
    · simp only [Bool.not_false, if_true]
      show -64 ≤ (updateOnCarry _)._counter ∧ (updateOnCarry _)._counter ≤ 63
      apply updateOnCarry_counter
      rw [(IncrementAccumulator_fields m _).2.1]
      exact h
    · exact h
  · exact h

/-- Counter range and table entries are kept by every call, whatever the
frequency. -/
theorem counter_table_call {β : Type} (ops : BaseFdsChannel β) (m : ModChannel β) (c : ModCall)
    (hc : -64 ≤ m._counter ∧ m._counter ≤ 63) (ht : ∀ i, m._modTable.getD i 0 < 8) :
    (-64 ≤ (c.apply ops m)._counter ∧ (c.apply ops m)._counter ≤ 63) ∧
    (∀ i, (c.apply ops m)._modTable.getD i 0 < 8) := by
  cases c with
  | WriteReg addr value =>
    simp only [ModCall.apply, WriteReg]
    split_ifs
    · exact ⟨hc, ht⟩
    · exact ⟨⟨(UpdateCounter_range _ _).1, (UpdateCounter_range _ _).2.1⟩, ht⟩
    · exact ⟨hc, ht⟩
    · exact ⟨hc, ht⟩
    · exact ⟨hc, ht⟩
  | WriteModTable value =>
    simp only [ModCall.apply, WriteModTable]
    split
    · have hf := IncrementAccumulator_fields
        { m with _modTable := m._modTable.set m._modTablePosition (value % 256 &&& 0x07) } 0x2000
      have hv : value % 256 &&& 0x07 < 8 := by rw [and_0x07]; omega
      refine ⟨?_, ?_⟩
      · show -64 ≤ (IncrementAccumulator _ _)._counter ∧ (IncrementAccumulator _ _)._counter ≤ 63
        rw [hf.2.1]; exact hc
      · show ∀ i, (IncrementAccumulator _ _)._modTable.getD i 0 < 8
        rw [hf.2.2.2.2.2.1]; exact getD_set_lt _ _ _ hv ht
    · exact ⟨hc, ht⟩
  | TickModulator halt =>
    refine ⟨TickModulator_counter ops m halt hc, ?_⟩
    show ∀ i, (TickModulator ops m halt).1._modTable.getD i 0 < 8
    rw [TickModulator_modTable]; exact ht
  | UpdateOutput p => exact ⟨hc, ht⟩

theorem counter_table_runMod {β : Type} (ops : BaseFdsChannel β) (calls : List ModCall) :
    ∀ m : ModChannel β, (-64 ≤ m._counter ∧ m._counter ≤ 63) → (∀ i, m._modTable.getD i 0 < 8) →
      (-64 ≤ (runMod ops m calls)._counter ∧ (runMod ops m calls)._counter ≤ 63) ∧
      (∀ i, (runMod ops m calls)._modTable.getD i 0 < 8) := by
  induction calls with
  | nil => intro m hc ht; exact ⟨hc, ht⟩
  | cons c rest ih =>
    intro m hc ht
    have h := counter_table_call ops m c hc ht
    exact ih (c.apply ops m) h.1 h.2

/-- Every entry of `_modLut` other than `ModReset` is one of the seven steps. -/
theorem modLut_entry (k : Nat) (hk : k < 8) (hne : _modLut.getD k 0 ≠ ModReset) :
    _modLut.getD k 0 ∈ [-4, -2, -1, 0, 1, 2, 4] := by
  interval_cases k <;> first | (exfalso; exact hne rfl) | decide

/-- With a non-zero 12-bit frequency and no forced carry, `TickModulator`
changes the counter only when this call's addition carried out of bit 11. -/
theorem tick_counter_change_nonzero {β : Type} (ops : BaseFdsChannel β) (m : ModChannel β)
    (halt : Bool) (hforce : m._forceCarryOut = false) (hnz : _frequency ops m ≠ 0)
    (hle : _frequency ops m ≤ 0xFFF) (hacc : m._modAccumulator < 0x40000)
    (hch : (TickModulator ops m halt).1._counter ≠ m._counter) :
    carriesOutOfBit11 m._modAccumulator (_frequency ops m) = true := by
  by_contra hno
  apply hch
  have hn := IncrementAccumulator_nonzero m (_frequency ops m) hnz (by omega) hacc
  have hfl := IncrementAccumulator_fields m (_frequency ops m)
  have hflag : (IncrementAccumulator m (_frequency ops m))._bit11CarryOut = false := by
    rw [hn.2]
    simp only [carriesOutOfBit11, decide_eq_true_eq, not_le] at hno
    simp only [decide_eq_false_iff_not, not_lt]
    omega
  unfold TickModulator
  dsimp only
  split
  · cases halt
    · simp only [Bool.not_false, if_true, hforce, Bool.false_eq_true, if_false]
      show (updateOnCarry _)._counter = _
      unfold updateOnCarry
      simp only [hflag, hfl.2.2.2.2.1, hforce, Bool.or_self, Bool.false_eq_true, if_false]
      exact hfl.2.1
    · rfl
  · rfl

end ModChannel

/-! ## TickModulator and the carry out of bit 11 -/

set_option maxRecDepth 100000 in
/-- C17 fails on the code: in the state reached by `staleCarryCalls` the forced
carry is clear, the frequency is 0 and the counter is 1; the next
`TickModulator` adds nothing to the accumulator (it stays 0x1FFE, no carry out
of bit 11), yet the counter becomes 2, because `IncrementAccumulator` returned
early and left `_bit11CarryOut` set by an earlier call. -/
theorem tickModulator_stale_carry :
    (runMod sampleBase (ModChannel.init {}) staleCarryCalls)._forceCarryOut = false ∧
    ModChannel._frequency sampleBase (runMod sampleBase (ModChannel.init {}) staleCarryCalls) = 0 ∧
    (runMod sampleBase (ModChannel.init {}) staleCarryCalls)._bit11CarryOut = true ∧
    (runMod sampleBase (ModChannel.init {}) staleCarryCalls)._modAccumulator = 0x1FFE ∧
    (runMod sampleBase (ModChannel.init {}) staleCarryCalls)._counter = 1 ∧
    carriesOutOfBit11 (runMod sampleBase (ModChannel.init {}) staleCarryCalls)._modAccumulator
      (ModChannel._frequency sampleBase (runMod sampleBase (ModChannel.init {}) staleCarryCalls))
      = false ∧
    (ModChannel.TickModulator sampleBase
      (runMod sampleBase (ModChannel.init {}) staleCarryCalls) false).1._modAccumulator = 0x1FFE ∧
    (ModChannel.TickModulator sampleBase
      (runMod sampleBase (ModChannel.init {}) staleCarryCalls) false).1._counter = 2 := by
  decide

/-! ## Invariants of ModChannel -/

/-- C18: when the base class keeps the mod frequency within 12 bits, then in
every state reached from a freshly constructed channel by `WriteReg`,
`WriteModTable`, `TickModulator` (and `UpdateOutput`) the accumulator is below
2^18, the cached table position equals bits 13-17 of the accumulator, every
table entry is below 8, and the lookups `_modTable[_modTablePosition]` and
`_modLut[_modTable[_modTablePosition]]` are within bounds. -/
theorem modChannel_invariant {β : Type} (ops : BaseFdsChannel β)
    (hf : ∀ b, ops.frequency b ≤ 0xFFF) (b0 : β) (calls : List ModCall) :
    (runMod ops (ModChannel.init b0) calls)._modAccumulator < 2 ^ 18 ∧
    (runMod ops (ModChannel.init b0) calls)._modTablePosition
      = ((runMod ops (ModChannel.init b0) calls)._modAccumulator >>> 13) &&& 0x1F ∧
    (∀ i, (runMod ops (ModChannel.init b0) calls)._modTable.getD i 0 < 8) ∧
    (runMod ops (ModChannel.init b0) calls)._modTablePosition
      < (runMod ops (ModChannel.init b0) calls)._modTable.length ∧
    (runMod ops (ModChannel.init b0) calls)._modTable.getD
        (runMod ops (ModChannel.init b0) calls)._modTablePosition 0
      < ModChannel._modLut.length := by
  obtain ⟨hacc, hpos, hlen, htab⟩ :=
    ModChannel.ModInv_runMod ops hf calls (ModChannel.init b0) (ModChannel.ModInv_init b0)
  refine ⟨hacc, hpos, htab, ?_, htab _⟩
  rw [hlen, hpos, and_0x1F]
  omega

set_option maxRecDepth 100000 in
/-- Witness for C18: the sample base class keeps the frequency within 12 bits;
after `staleCarryCalls` and one more tick the accumulator is 0x1FFE and the
position is 0. -/
theorem modChannel_invariant_witness :
    (runMod sampleBase (ModChannel.init {})
        (staleCarryCalls ++ [ModCall.TickModulator false]))._modAccumulator < 2 ^ 18 ∧
    (runMod sampleBase (ModChannel.init {})
        (staleCarryCalls ++ [ModCall.TickModulator false]))._modTablePosition
      = ((runMod sampleBase (ModChannel.init {})
          (staleCarryCalls ++ [ModCall.TickModulator false]))._modAccumulator >>> 13) &&& 0x1F :=
  have h := modChannel_invariant sampleBase
    (by intro b; show (b.hi % 16) * 256 + b.lo % 256 ≤ 0xFFF; omega) {}
    (staleCarryCalls ++ [ModCall.TickModulator false])
  ⟨h.1, h.2.1⟩

/-- C19: `UpdateCounter` leaves a value in [-64, 63] congruent to its argument
modulo 128, for every argument; so does `WriteReg($4085)`; in every state
reached from a freshly constructed channel the counter is in [-64, 63], and
the offset read from `_modLut`, when it is not `ModReset`, is one of
-4, -2, -1, 0, 1, 2, 4 and its sum with the counter is unchanged by the
conversion to `int8_t`. -/
theorem updateCounter_wraps {β : Type} (ops : BaseFdsChannel β) (m : ModChannel β) (v : Int)
    (value : Nat) (b0 : β) (calls : List ModCall) :
    (-64 ≤ (ModChannel.UpdateCounter m v)._counter ∧ (ModChannel.UpdateCounter m v)._counter ≤ 63 ∧
      ((ModChannel.UpdateCounter m v)._counter - v) % 128 = 0) ∧
    (-64 ≤ (ModChannel.WriteReg ops m 0x4085 value)._counter ∧
      (ModChannel.WriteReg ops m 0x4085 value)._counter ≤ 63) ∧
    (-64 ≤ (runMod ops (ModChannel.init b0) calls)._counter ∧
      (runMod ops (ModChannel.init b0) calls)._counter ≤ 63) ∧
    (ModChannel.currentOffset (runMod ops (ModChannel.init b0) calls) ≠ ModChannel.ModReset →
      ModChannel.currentOffset (runMod ops (ModChannel.init b0) calls) ∈ [-4, -2, -1, 0, 1, 2, 4] ∧
      ModChannel.toInt8 ((runMod ops (ModChannel.init b0) calls)._counter
          + ModChannel.currentOffset (runMod ops (ModChannel.init b0) calls))
        = (runMod ops (ModChannel.init b0) calls)._counter
          + ModChannel.currentOffset (runMod ops (ModChannel.init b0) calls)) := by
  have hinit := ModChannel.ModInv_init b0
  obtain ⟨hc, ht⟩ := ModChannel.counter_table_runMod ops calls (ModChannel.init b0)
    ⟨by show (-64 : Int) ≤ 0; omega, by show (0 : Int) ≤ 63; omega⟩ hinit.2.2.2
  refine ⟨ModChannel.UpdateCounter_range m v, ?_, hc, ?_⟩
  · have hw : ModChannel.WriteReg ops m 0x4085 value
        = ModChannel.UpdateCounter m ((value &&& 0x7F : Nat) : Int) := by
      simp [ModChannel.WriteReg]
    rw [hw]
    exact ⟨(ModChannel.UpdateCounter_range m _).1, (ModChannel.UpdateCounter_range m _).2.1⟩
  · intro hne
    have hmem : ModChannel.currentOffset (runMod ops (ModChannel.init b0) calls)
        ∈ [-4, -2, -1, 0, 1, 2, 4] := ModChannel.modLut_entry _ (ht _) hne
    refine ⟨hmem, ?_⟩
    simp only [List.mem_cons, List.mem_singleton, List.not_mem_nil, or_false] at hmem
    unfold ModChannel.toInt8
    rcases hmem with h | h | h | h | h | h | h <;> (rw [h]; omega)

set_option maxRecDepth 100000 in
/-- Witness for C19: after `staleCarryCalls` the counter is 1 and the offset is
1; their sum 2 fits `int8_t`. -/
theorem updateCounter_wraps_witness :
    ModChannel.currentOffset (runMod sampleBase (ModChannel.init {}) staleCarryCalls) = 1 ∧
    ModChannel.toInt8 ((runMod sampleBase (ModChannel.init {}) staleCarryCalls)._counter
        + ModChannel.currentOffset (runMod sampleBase (ModChannel.init {}) staleCarryCalls))
      = (runMod sampleBase (ModChannel.init {}) staleCarryCalls)._counter
        + ModChannel.currentOffset (runMod sampleBase (ModChannel.init {}) staleCarryCalls) :=
  ⟨by decide,
   ((updateCounter_wraps sampleBase (ModChannel.init {}) 0 0 {} staleCarryCalls).2.2.2
      (by decide)).2⟩

/-! ## The wave unit -/

namespace FdsAudio

theorem UpdateOutput_wave {β : Type} (ops : BaseFdsChannel β) (dac : Nat → Nat → Nat → Nat)
    (a : FdsAudio β) :
    (UpdateOutput ops dac a).1._waveAccumulator = a._waveAccumulator ∧
    (UpdateOutput ops dac a).1._wavePosition = a._wavePosition := by
  unfold UpdateOutput
  dsimp only
  split_ifs <;> exact ⟨rfl, rfl⟩

theorem clockEnvelopes_wave {β : Type} (ops : BaseFdsChannel β) (a : FdsAudio β) (f : Nat) :
    (clockEnvelopes ops a f)._waveAccumulator = a._waveAccumulator ∧
    (clockEnvelopes ops a f)._wavePosition = a._wavePosition ∧
    (clockEnvelopes ops a f)._haltWaveform = a._haltWaveform ∧
    (clockEnvelopes ops a f)._waveWriteEnabled = a._waveWriteEnabled := by
  unfold clockEnvelopes
  dsimp only
  split_ifs <;> exact ⟨rfl, rfl, rfl, rfl⟩

theorem WriteRegister_wave {β : Type} (ops : BaseFdsChannel β) (a : FdsAudio β)
    (addr value : Nat) :
    (WriteRegister ops a addr value)._waveAccumulator = a._waveAccumulator ∧
    (WriteRegister ops a addr value)._wavePosition = a._wavePosition := by
  unfold WriteRegister
  dsimp only
  split_ifs <;> exact ⟨rfl, rfl⟩

/-- The wave-unit statement keeps the invariant. -/
theorem WaveInv_clockWave {β : Type} (a : FdsAudio β) (f : Nat) (h : WaveInv a) :
    WaveInv (clockWave a f) := by
  obtain ⟨hacc, hpos⟩ := h
  unfold clockWave
  dsimp only
  by_cases hh : a._haltWaveform = true
  · rw [if_pos hh]
    exact ⟨by show (0 : Nat) ≤ 0xFFFFFF; omega, rfl⟩
  · rw [if_neg hh]
    by_cases hc : (a._waveM2Counter + 1) % 256 = 16
    · rw [if_pos hc]
      cases hw : a._waveWriteEnabled
      · simp only [Bool.not_false, if_true]
        refine ⟨?_, rfl⟩
        have hd : ((f * ModChannel.GetOutput a._mod) % 4294967296) &&& 0xFFFFF ≤ 0xFFFFF :=
          Nat.and_le_right
        show (if (a._waveAccumulator
            + (((f * ModChannel.GetOutput a._mod) % 4294967296) &&& 0xFFFFF)) % 4294967296
              > 0xFFFFFF
          then (a._waveAccumulator
            + (((f * ModChannel.GetOutput a._mod) % 4294967296) &&& 0xFFFFF)) % 4294967296
              - 0x1000000
          else (a._waveAccumulator
            + (((f * ModChannel.GetOutput a._mod) % 4294967296) &&& 0xFFFFF)) % 4294967296)
          ≤ 0xFFFFFF
        generalize ((f * ModChannel.GetOutput a._mod) % 4294967296) &&& 0xFFFFF = d at hd
        split_ifs <;> omega
      · simp only [Bool.not_true, Bool.false_eq_true, if_false]
        exact ⟨hacc, hpos⟩
    · rw [if_neg hc]
      exact ⟨hacc, hpos⟩

theorem WaveInv_call {β : Type} (ops : BaseFdsChannel β) (dac : Nat → Nat → Nat → Nat)
    (a : FdsAudio β) (c : FdsCall) (h : WaveInv a) : WaveInv (c.apply ops dac a) := by
  cases c with
  | ClockAudio =>
    have hu := UpdateOutput_wave ops dac
      (clockWave (clockEnvelopes ops a (ops.frequency a._volume % 65536))
        (ops.frequency a._volume % 65536))
    have he := clockEnvelopes_wave ops a (ops.frequency a._volume % 65536)
    have hw := WaveInv_clockWave (clockEnvelopes ops a (ops.frequency a._volume % 65536))
      (ops.frequency a._volume % 65536)
      (by unfold WaveInv; rw [he.1, he.2.1]; exact h)
    unfold WaveInv at hw ⊢
    simp only [FdsCall.apply, ClockAudio]
    rw [hu.1, hu.2]
    exact hw
  | WriteRegister addr value =>
    have hw := WriteRegister_wave ops a (addr % 65536) (value % 256)
    unfold WaveInv at h ⊢
    simp only [FdsCall.apply]
    rw [hw.1, hw.2]
    exact h

theorem WaveInv_runFds {β : Type} (ops : BaseFdsChannel β) (dac : Nat → Nat → Nat → Nat)
    (calls : List FdsCall) : ∀ a : FdsAudio β, WaveInv a → WaveInv (runFds ops dac a calls) := by
  induction calls with
  | nil => intro a h; exact h
  | cons c rest ih =>
    intro a h
    exact ih (c.apply ops dac a) (WaveInv_call ops dac a c h)

end FdsAudio

set_option maxRecDepth 100000 in
/-- C20 fails as stated: after `haltedWriteCalls` wave write is enabled and the
accumulator is 0x3FC0, yet `ClockAudio` sets the accumulator to 0, because the
waveform is halted as well. -/
theorem clockAudio_write_enabled_counterexample :
    (runFds sampleBase sampleDac (FdsAudio.init {} {}) haltedWriteCalls)._waveWriteEnabled = true ∧
    (runFds sampleBase sampleDac (FdsAudio.init {} {}) haltedWriteCalls)._haltWaveform = true ∧
    (runFds sampleBase sampleDac (FdsAudio.init {} {}) haltedWriteCalls)._waveAccumulator
      = 0x3FC0 ∧
    (FdsAudio.ClockAudio sampleBase sampleDac
      (runFds sampleBase sampleDac (FdsAudio.init {} {}) haltedWriteCalls)).1._waveAccumulator
      = 0 := by
  decide

/-- C20 (amended): in every state reached from a zeroed audio unit by
`ClockAudio` and `WriteRegister` the wave accumulator fits in 24 bits and the
wave position equals `(_waveAccumulator >> 18) & 0x3F`, below 64; when the
waveform is halted `ClockAudio` sets both to 0; when wave write is enabled and
the waveform is not halted `ClockAudio` leaves both unchanged. -/
theorem wave_unit_invariant {β : Type} (ops : BaseFdsChannel β) (dac : Nat → Nat → Nat → Nat)
    (volume modBase : β) (calls : List FdsCall) (a : FdsAudio β) :
    ((runFds ops dac (FdsAudio.init volume modBase) calls)._waveAccumulator ≤ 0xFFFFFF ∧
     (runFds ops dac (FdsAudio.init volume modBase) calls)._wavePosition
       = ((runFds ops dac (FdsAudio.init volume modBase) calls)._waveAccumulator >>> 18) &&& 0x3F ∧
     (runFds ops dac (FdsAudio.init volume modBase) calls)._wavePosition < 64) ∧
    (a._haltWaveform = true →
      (FdsAudio.ClockAudio ops dac a).1._waveAccumulator = 0 ∧
      (FdsAudio.ClockAudio ops dac a).1._wavePosition = 0) ∧
    (a._waveWriteEnabled = true → a._haltWaveform = false →
      (FdsAudio.ClockAudio ops dac a).1._waveAccumulator = a._waveAccumulator ∧
      (FdsAudio.ClockAudio ops dac a).1._wavePosition = a._wavePosition) := by
  have he := FdsAudio.clockEnvelopes_wave ops a (ops.frequency a._volume % 65536)
  have hu := FdsAudio.UpdateOutput_wave ops dac
    (FdsAudio.clockWave (FdsAudio.clockEnvelopes ops a (ops.frequency a._volume % 65536))
      (ops.frequency a._volume % 65536))
  refine ⟨?_, ?_, ?_⟩
  · obtain ⟨hacc, hpos⟩ := FdsAudio.WaveInv_runFds ops dac calls (FdsAudio.init volume modBase)
      ⟨by show (0 : Nat) ≤ 0xFFFFFF; omega, by show (0 : Nat) = ((0 : Nat) >>> 18) &&& 0x3F; decide⟩
    refine ⟨hacc, hpos, ?_⟩
    rw [hpos, and_0x3F]
    omega
  · intro hh
    simp only [FdsAudio.ClockAudio]
    rw [hu.1, hu.2]
    unfold FdsAudio.clockWave
    simp only [he.2.2.1, hh, if_true]
    exact ⟨trivial, by decide⟩
  · intro hw hh
    simp only [FdsAudio.ClockAudio]
    rw [hu.1, hu.2]
    unfold FdsAudio.clockWave
    dsimp only
    simp only [he.2.2.1, he.2.2.2, hh, hw, Bool.false_eq_true, if_false, Bool.not_true]
    split_ifs <;> exact ⟨he.1, he.2.1⟩

set_option maxRecDepth 100000 in
/-- Witness for C20 (amended): after `haltedWriteCalls` the halted unit is
cleared by `ClockAudio`; with wave write enabled and the waveform running,
sixteen clocks leave the accumulator at its value. -/
theorem wave_unit_invariant_witness :
    ((FdsAudio.ClockAudio sampleBase sampleDac
        (runFds sampleBase sampleDac (FdsAudio.init {} {}) haltedWriteCalls)).1._waveAccumulator = 0 ∧
     (FdsAudio.ClockAudio sampleBase sampleDac
        (runFds sampleBase sampleDac (FdsAudio.init {} {}) haltedWriteCalls)).1._wavePosition = 0) ∧
    ((FdsAudio.ClockAudio sampleBase sampleDac
        (runFds sampleBase sampleDac (FdsAudio.init {} {})
          (haltedWriteCalls ++ [FdsCall.WriteRegister 0x4083 0x00]))).1._waveAccumulator
      = (runFds sampleBase sampleDac (FdsAudio.init {} {})
          (haltedWriteCalls ++ [FdsCall.WriteRegister 0x4083 0x00]))._waveAccumulator ∧
     (runFds sampleBase sampleDac (FdsAudio.init {} {})
          (haltedWriteCalls ++ [FdsCall.WriteRegister 0x4083 0x00]))._waveAccumulator = 0x3FC0) :=
  ⟨(wave_unit_invariant sampleBase sampleDac {} {} []
      (runFds sampleBase sampleDac (FdsAudio.init {} {}) haltedWriteCalls)).2.1 (by decide),
   ((wave_unit_invariant sampleBase sampleDac {} {} []
      (runFds sampleBase sampleDac (FdsAudio.init {} {})
        (haltedWriteCalls ++ [FdsCall.WriteRegister 0x4083 0x00]))).2.2 (by decide) (by decide)).1,
   by decide⟩

/-! ## The wave table -/

namespace FdsAudio

theorem ClockAudio_waveTable {β : Type} (ops : BaseFdsChannel β) (dac : Nat → Nat → Nat → Nat)
    (a : FdsAudio β) : (ClockAudio ops dac a).1._waveTable = a._waveTable := by
  have h1 : ∀ x : FdsAudio β, (UpdateOutput ops dac x).1._waveTable = x._waveTable := by
    intro x
    unfold UpdateOutput
    dsimp only
    split_ifs <;> rfl
  have h2 : ∀ (x : FdsAudio β) (f : Nat), (clockWave x f)._waveTable = x._waveTable := by
    intro x f
    unfold clockWave
    dsimp only
    split_ifs <;> rfl
  have h3 : ∀ (x : FdsAudio β) (f : Nat), (clockEnvelopes ops x f)._waveTable = x._waveTable := by
    intro x f
    unfold clockEnvelopes
    dsimp only
    split_ifs <;> rfl
  simp only [ClockAudio]
  rw [h1, h2, h3]

theorem WriteRegister_waveTable_length {β : Type} (ops : BaseFdsChannel β) (a : FdsAudio β)
    (addr value : Nat) :
    (WriteRegister ops a addr value)._waveTable.length = a._waveTable.length := by
  unfold WriteRegister
  dsimp only
  split_ifs <;> first | rfl | simp

/-- The wave table keeps its 64 entries. -/
theorem waveTable_length_runFds {β : Type} (ops : BaseFdsChannel β)
    (dac : Nat → Nat → Nat → Nat) (calls : List FdsCall) :
    ∀ a : FdsAudio β, a._waveTable.length = 64 →
      (runFds ops dac a calls)._waveTable.length = 64 := by
  induction calls with
  | nil => intro a h; exact h
  | cons c rest ih =>
    intro a h
    apply ih
    cases c with
    | ClockAudio =>
      show (ClockAudio ops dac a).1._waveTable.length = 64
      rw [ClockAudio_waveTable]; exact h
    | WriteRegister addr value =>
      show (WriteRegister ops a (addr % 65536) (value % 256))._waveTable.length = 64
      rw [WriteRegister_waveTable_length]; exact h

/-- With wave write enabled a write below `$4080` stores `value & 0x3F` at
entry `addr & 0x3F` and changes nothing else. -/
theorem WriteRegister_wave_enabled {β : Type} (ops : BaseFdsChannel β) (a : FdsAudio β)
    (addr value : Nat) (ha : addr ≤ 0x407F) (he : a._waveWriteEnabled = true) :
    WriteRegister ops a addr value
      = { a with _waveTable := a._waveTable.set (addr &&& 0x3F) (value &&& 0x3F) } := by
  unfold WriteRegister
  rw [if_pos ha, if_pos he]

/-- With wave write disabled a write below `$4080` changes nothing. -/
theorem WriteRegister_wave_disabled {β : Type} (ops : BaseFdsChannel β) (a : FdsAudio β)
    (addr value : Nat) (ha : addr ≤ 0x407F) (he : a._waveWriteEnabled = false) :
    WriteRegister ops a addr value = a := by
  unfold WriteRegister
  rw [if_pos ha]
  simp [he]

end FdsAudio

/-- C21: in every state reached from a zeroed audio unit by `ClockAudio` and
`WriteRegister`, for every address up to `$407F` (in particular `$4040-$407F`),
every byte `v` and every open-bus byte `b`: with wave write enabled,
`WriteRegister(addr, v)` followed by `ReadRegister(addr)` returns
`(b & 0xC0) | (v & 0x3F)`, the written entry `addr & 0x3F` lies inside the
table and every other entry is unchanged; with wave write disabled,
`WriteRegister` leaves the unit unchanged and `ReadRegister` returns
`(b & 0xC0) | _waveTable[_wavePosition]`, the position lying inside the
table. -/
theorem wave_table_round_trip {β : Type} (ops : BaseFdsChannel β)
    (dac : Nat → Nat → Nat → Nat) (volume modBase : β) (calls : List FdsCall)
    (addr v b : Nat) (ha : addr ≤ 0x407F) (hb : b < 256) :
    ((runFds ops dac (FdsAudio.init volume modBase) calls)._waveWriteEnabled = true →
      FdsAudio.ReadRegister ops
          (FdsAudio.WriteRegister ops (runFds ops dac (FdsAudio.init volume modBase) calls) addr v)
          addr b
        = (b &&& 0xC0) ||| (v &&& 0x3F) ∧
      (addr &&& 0x3F) < (runFds ops dac (FdsAudio.init volume modBase) calls)._waveTable.length ∧
      (∀ i, i ≠ addr &&& 0x3F →
        (FdsAudio.WriteRegister ops (runFds ops dac (FdsAudio.init volume modBase) calls)
            addr v)._waveTable.getD i 0
          = (runFds ops dac (FdsAudio.init volume modBase) calls)._waveTable.getD i 0)) ∧
    ((runFds ops dac (FdsAudio.init volume modBase) calls)._waveWriteEnabled = false →
      FdsAudio.WriteRegister ops (runFds ops dac (FdsAudio.init volume modBase) calls) addr v
        = runFds ops dac (FdsAudio.init volume modBase) calls ∧
      FdsAudio.ReadRegister ops
          (FdsAudio.WriteRegister ops (runFds ops dac (FdsAudio.init volume modBase) calls) addr v)
          addr b
        = (b &&& 0xC0) ||| (runFds ops dac (FdsAudio.init volume modBase) calls)._waveTable.getD
            (runFds ops dac (FdsAudio.init volume modBase) calls)._wavePosition 0 ∧
      (runFds ops dac (FdsAudio.init volume modBase) calls)._wavePosition
        < (runFds ops dac (FdsAudio.init volume modBase) calls)._waveTable.length) := by
  have hlen := FdsAudio.waveTable_length_runFds ops dac calls (FdsAudio.init volume modBase)
    (by show (List.replicate 64 0).length = 64; simp)
  have hinv := FdsAudio.WaveInv_runFds ops dac calls (FdsAudio.init volume modBase)
    ⟨by show (0 : Nat) ≤ 0xFFFFFF; omega, by show (0 : Nat) = ((0 : Nat) >>> 18) &&& 0x3F; decide⟩
  generalize runFds ops dac (FdsAudio.init volume modBase) calls = a at hlen hinv ⊢
  have hbm : b % 256 = b := Nat.mod_eq_of_lt hb
  have hk : (addr &&& 0x3F) < a._waveTable.length := by
    rw [hlen, and_0x3F]; omega
  constructor
  · intro he
    rw [FdsAudio.WriteRegister_wave_enabled ops a addr v ha he]
    refine ⟨?_, hk, ?_⟩
    · unfold FdsAudio.ReadRegister
      dsimp only
      rw [if_pos ha, if_pos he, hbm, List.getD_eq_getElem?_getD, List.getElem?_set]
      simp [hk]
    · intro i hi
      dsimp only
      rw [List.getD_eq_getElem?_getD, List.getD_eq_getElem?_getD, List.getElem?_set]
      simp [Ne.symm hi]
  · intro he
    rw [FdsAudio.WriteRegister_wave_disabled ops a addr v ha he]
    refine ⟨rfl, ?_, ?_⟩
    · unfold FdsAudio.ReadRegister
      dsimp only
      rw [if_pos ha, hbm]
      simp [he]
    · rw [hlen, hinv.2, and_0x3F]
      omega

/-- Witness for C21: after `$4089 = 0x80`, writing 0xFF to `$4045` and reading
it back on open bus 0xA5 gives 0xBF; after writing 0x2A to `$4040` and
`$4089 = 0x00`, a write of 0xFF to `$4045` is ignored and the read returns
0xAA, the entry at wave position 0. -/
theorem wave_table_round_trip_witness :
    FdsAudio.ReadRegister sampleBase
        (FdsAudio.WriteRegister sampleBase
          (runFds sampleBase sampleDac (FdsAudio.init {} {}) [FdsCall.WriteRegister 0x4089 0x80])
          0x4045 0xFF)
        0x4045 0xA5 = 0xBF ∧
    FdsAudio.ReadRegister sampleBase
        (FdsAudio.WriteRegister sampleBase
          (runFds sampleBase sampleDac (FdsAudio.init {} {})
            [FdsCall.WriteRegister 0x4089 0x80, FdsCall.WriteRegister 0x4040 0x2A,
             FdsCall.WriteRegister 0x4089 0x00])
          0x4045 0xFF)
        0x4045 0xA5 = 0xAA :=
  ⟨((wave_table_round_trip sampleBase sampleDac {} {} [FdsCall.WriteRegister 0x4089 0x80]
      0x4045 0xFF 0xA5 (by decide) (by decide)).1 (by decide)).1.trans (by decide),
   ((wave_table_round_trip sampleBase sampleDac {} {}
      [FdsCall.WriteRegister 0x4089 0x80, FdsCall.WriteRegister 0x4040 0x2A,
       FdsCall.WriteRegister 0x4089 0x00]
      0x4045 0xFF 0xA5 (by decide) (by decide)).2 (by decide)).2.1.trans (by decide)⟩
